import Mathlib

/-!
Verification development for the pctools fixed-income core: the business-day
calendar engine (`Calendar.py`), day-count and compounding conversions and the
curve bootstrap (`Curve_bkp.py`), and the tenor label / bucket redistribution
model (`Bucket.py`).

Dates are modelled as integers counting days since 1970-01-01 (the
`numpy.datetime64` day unit used throughout the source).  Year fractions are
exact rationals, rates and factors are real numbers.  Fallible Python code
(raising `ValueError` and friends) is modelled with `Except`.
-/

namespace Pctools

/-! ### Calendar core (numpy busday semantics)

`np.busdaycalendar` with the default weekmask: a day is a business day iff it
is a Monday..Friday and not a listed holiday.  Day 0 = 1970-01-01 was a
Thursday, so `(d + 3) % 7` gives the weekday with Monday = 0. -/

def weekday (d : ℤ) : ℤ := (d + 3) % 7

def isbdCore (hols : List ℤ) (d : ℤ) : Bool :=
  decide (weekday d < 5) && !(hols.contains d)

/-- Number of business days in the half-open interval `[s, s + n)`. -/
def countIn (hols : List ℤ) (s : ℤ) : ℕ → ℕ
  | 0 => 0
  | n + 1 => countIn hols s n + (if isbdCore hols (s + n) then 1 else 0)

/-- `np.busday_count`: business days in `[s, e)`, negated if `e < s`. -/
def busday_count (hols : List ℤ) (s e : ℤ) : ℤ :=
  if s ≤ e then (countIn hols s (e - s).toNat : ℤ)
  else -(countIn hols e (s - e).toNat : ℤ)

theorem countIn_add (hols : List ℤ) (s : ℤ) (m n : ℕ) :
    countIn hols s (m + n) = countIn hols s m + countIn hols (s + m) n := by
  induction n with
  | zero => simp [countIn]
  | succ k ih =>
    have : m + (k + 1) = (m + k) + 1 := by omega
    rw [this]
    simp only [countIn, ih]
    have : s + (m : ℤ) + (k : ℤ) = s + ((m + k : ℕ) : ℤ) := by push_cast; ring
    rw [this]
    omega

theorem busday_count_mono (hols : List ℤ) (s : ℤ) {d e : ℤ} (h : d ≤ e) :
    busday_count hols s d ≤ busday_count hols s e := by
  unfold busday_count
  rcases le_or_lt s d with hsd | hsd
  · rw [if_pos hsd, if_pos (le_trans hsd h)]
    have hsplit : (e - s).toNat = (d - s).toNat + (e - d).toNat := by omega
    rw [hsplit, countIn_add]
    omega
  · rw [if_neg (not_le.mpr hsd)]
    rcases le_or_lt s e with hse | hse
    · rw [if_pos hse]
      omega
    · rw [if_neg (not_le.mpr hse)]
      have hsplit : (s - d).toNat = (e - d).toNat + (s - e).toNat := by omega
      rw [hsplit, countIn_add]
      have : d + ((e - d).toNat : ℤ) = e := by omega
      rw [this]
      omega

/-! ### Civil dates

Serial-day/civil-date conversions (needed for the ACT/ACT term and for the
`modifiedfollowing` roll), following the standard era-based algorithm.  All
intermediate quantities that matter are non-negative, so truncating division
agrees with floor there; the single possibly-negative division uses `fdiv`. -/

def civilFromDays (z0 : ℤ) : ℤ × ℤ × ℤ :=
  let z := z0 + 719468
  let era := Int.fdiv z 146097
  let doe := z - era * 146097
  let yoe := (doe - doe / 1460 + doe / 36524 - doe / 146096) / 365
  let y := yoe + era * 400
  let doy := doe - (365 * yoe + yoe / 4 - yoe / 100)
  let mp := (5 * doy + 2) / 153
  let dd := doy - (153 * mp + 2) / 5 + 1
  let m := mp + (if mp < 10 then 3 else (-9))
  (y + (if m ≤ 2 then 1 else 0), m, dd)

def daysFromCivil (y0 m d : ℤ) : ℤ :=
  let y := y0 - (if m ≤ 2 then 1 else 0)
  let era := Int.fdiv y 400
  let yoe := y - era * 400
  let doy := (153 * (m + (if 2 < m then (-3) else 9)) + 2) / 5 + d - 1
  let doe := yoe * 365 + yoe / 4 - yoe / 100 + doy
  era * 146097 + doe - 719468

def yearOf (d : ℤ) : ℤ := (civilFromDays d).1

def monthOf (d : ℤ) : ℤ := (civilFromDays d).2.1

/-- Serial day of January 1st of year `y` (`pd.Timestamp(str(year))`). -/
def jan1 (y : ℤ) : ℤ := daysFromCivil y 1 1

def isLeapYear (y : ℤ) : Bool :=
  (y % 4 == 0 && y % 100 != 0) || (y % 400 == 0)

/-! ### Day-count conventions and terms (`_calc_term`) -/

inductive DayCount
  | BUS252
  | ACT360
  | ACT365
  | ACTACT
deriving DecidableEq

inductive Compounding
  | YIELD
  | LINEAR
  | CONTINUOUS
deriving DecidableEq

inductive InterpMethod
  | LIN
  | EXP
deriving DecidableEq

/-- The `act_act_term` helper for the ascending case `s ≤ e`: sum over each
calendar year of (days in that year) / (length of that year). -/
def actActTermAsc (s e : ℤ) : ℚ :=
  let y0 := yearOf s
  let y1 := yearOf e
  ((List.range (y1 - y0 + 1).toNat).map (fun k =>
    let y := y0 + (k : ℤ)
    let den : ℚ := if isLeapYear y then 366 else 365
    let num : ℤ :=
      if y = y0 ∧ y0 = y1 then e - s
      else if y = y0 then jan1 (y + 1) - s
      else if y = y1 then e - jan1 y
      else jan1 (y + 1) - jan1 y
    (num : ℚ) / den)).sum

/-- `act_act_term`: if start > end, swap, compute, and negate. -/
def actActTerm (s e : ℤ) : ℚ :=
  if e < s then -(actActTermAsc e s) else actActTermAsc s e

/-- `_calc_term` (scalar path).  `cal` is the resolved holiday list; it is
only consulted for BUS/252, as in the source. -/
def calcTerm (dc : DayCount) (cal : List ℤ) (s e : ℤ) : ℚ :=
  match dc with
  | .BUS252 => (busday_count cal s e : ℚ) / 252
  | .ACT360 => ((e - s : ℤ) : ℚ) / 360
  | .ACT365 => ((e - s : ℤ) : ℚ) / 365
  | .ACTACT => actActTerm s e

/-! ### rate2fct / fct2rate -/

def negTermMsg : String :=
  "Unable to calculate factors with end_dates < start_dates"

/-- `rate2fct` on a scalar rate. -/
noncomputable def rate2fct (r : ℝ) (s e : ℤ) (comp : Compounding)
    (dc : DayCount) (cal : List ℤ) : Except String ℝ :=
  let t : ℚ := calcTerm dc cal s e
  if t < 0 then .error negTermMsg
  else
    match comp with
    | .YIELD => .ok ((1 + r) ^ ((t : ℝ)))
    | .LINEAR => .ok (1 + r * (t : ℝ))
    | .CONTINUOUS => .ok (Real.exp (r * (t : ℝ)))

/-- `fct2rate` on a scalar factor. -/
noncomputable def fct2rate (f : ℝ) (s e : ℤ) (comp : Compounding)
    (dc : DayCount) (cal : List ℤ) : Except String ℝ :=
  let t : ℚ := calcTerm dc cal s e
  if t < 0 then .error negTermMsg
  else
    match comp with
    | .YIELD => .ok (f ^ ((1 : ℝ) / (t : ℝ)) - 1)
    | .LINEAR => .ok ((f - 1) / (t : ℝ))
    | .CONTINUOUS => .ok (Real.log f / (t : ℝ))

/-- `rate2fct` on an array of rates with a common start date (the
element-wise numpy broadcast): the whole call fails if any term is
negative. -/
noncomputable def rate2fctV (rs : List ℝ) (s : ℤ) (es : List ℤ)
    (comp : Compounding) (dc : DayCount) (cal : List ℤ) :
    Except String (List ℝ) :=
  let ts := es.map (calcTerm dc cal s)
  if ts.any (fun t => decide (t < 0)) then .error negTermMsg
  else
    .ok ((rs.zip ts).map (fun p =>
      match comp with
      | .YIELD => (1 + p.1) ^ ((p.2 : ℝ))
      | .LINEAR => 1 + p.1 * (p.2 : ℝ)
      | .CONTINUOUS => Real.exp (p.1 * (p.2 : ℝ))))

/-- `fct2rate` on an array of factors with a common start date. -/
noncomputable def fct2rateV (fs : List ℝ) (s : ℤ) (es : List ℤ)
    (comp : Compounding) (dc : DayCount) (cal : List ℤ) :
    Except String (List ℝ) :=
  let ts := es.map (calcTerm dc cal s)
  if ts.any (fun t => decide (t < 0)) then .error negTermMsg
  else
    .ok ((fs.zip ts).map (fun p =>
      match comp with
      | .YIELD => p.1 ^ ((1 : ℝ) / (p.2 : ℝ)) - 1
      | .LINEAR => (p.1 - 1) / (p.2 : ℝ)
      | .CONTINUOUS => Real.log p.1 / (p.2 : ℝ)))

/-! ### The Curve model (`Curve_bkp.py`)

`curveInit` mirrors `Curve.__init__` on parallel lists of start dates, end
dates and rates.  The `log_factors` precomputation of the source is pure and
is inlined at the use site in `interp` (same value, no stored field). -/

structure Curve where
  ref_date : ℤ
  start_dates : List ℤ
  end_dates : List ℤ
  interp_method : InterpMethod
  compounding : Compounding
  day_count : DayCount
  cal : List ℤ
  factors : List ℝ
  rates : List ℝ
  ndays : List ℤ

def fraMsg : String := "Cannot calculate FRAs with given dates"

/-- The inner `for j in range(i)` search: multiply the segment factor by every
previously resolved factor whose end date equals this segment's start date;
error if there is none. -/
def chainFactor (s : ℤ) (tf : ℝ) (prev : List (ℤ × ℝ)) : Except String ℝ :=
  let ms := prev.filter (fun p => decide (p.1 = s))
  if ms.isEmpty then .error fraMsg
  else .ok (ms.foldl (fun a p => a * p.2) tf)

/-- The bootstrap loop over segments `(start, end, rate)`, carrying the list
of already resolved `(end_date, factor)` pairs in index order. -/
noncomputable def bootstrap (comp : Compounding) (dc : DayCount)
    (cal : List ℤ) (ref : ℤ) :
    List (ℤ × ℤ × ℝ) → List (ℤ × ℝ) → Except String (List ℝ)
  | [], _ => .ok []
  | (s, e, r) :: rest, prev =>
    match rate2fct r s e comp dc cal with
    | .error m => .error m
    | .ok tf =>
      match (if s = ref then Except.ok tf else chainFactor s tf prev) with
      | .error m => .error m
      | .ok f =>
        match bootstrap comp dc cal ref rest (prev ++ [(e, f)]) with
        | .error m => .error m
        | .ok fs => .ok (f :: fs)

/-- Boolean ascending check (`np.array_equal(np.sort(xs), xs)`). -/
def isSortedLeB : List ℤ → Bool
  | [] => true
  | [_] => true
  | a :: b :: t => decide (a ≤ b) && isSortedLeB (b :: t)

/-- Boolean no-duplicates check (`len(np.unique(xs)) == len(xs)`). -/
def nodupB : List ℤ → Bool
  | [] => true
  | a :: t => !(t.contains a) && nodupB t

noncomputable def curveInit (start_dates end_dates : List ℤ) (rates : List ℝ)
    (im : InterpMethod) (comp : Compounding) (dc : DayCount) (cal : List ℤ) :
    Except String Curve :=
  if start_dates.length ≠ end_dates.length then
    .error "start and end dates must have the same length"
  else if end_dates.length ≠ rates.length then
    .error "end_dates and rates must have the same length"
  else if !(isSortedLeB end_dates) then
    .error "end_dates must be sorted in ascending order"
  else if !(nodupB end_dates) then
    .error "end_dates must be all unique"
  else
    match start_dates with
    | [] => .error "index 0 is out of bounds"
    | ref :: rest =>
      if dc = DayCount.BUS252 &&
          !(nodupB (end_dates.map (busday_count cal ref))) then
        .error "Dates given must have no repeated business days count"
      else
        match bootstrap comp dc cal ref
            ((ref :: rest).zip (end_dates.zip rates)) [] with
        | .error m => .error m
        | .ok fs =>
          match fct2rateV fs ref end_dates comp dc cal with
          | .error m => .error m
          | .ok rs =>
            .ok { ref_date := ref
                  start_dates := ref :: rest
                  end_dates := end_dates
                  interp_method := im
                  compounding := comp
                  day_count := dc
                  cal := cal
                  factors := fs
                  rates := rs
                  ndays :=
                    match dc with
                    | .BUS252 => end_dates.map (busday_count cal ref)
                    | _ => end_dates.map (fun e => e - ref) }

/-- `np.interp` on a list of `(x, y)` knots with ascending `x`: clamped at
both ends, piecewise linear in between. -/
noncomputable def npInterp : List (ℝ × ℝ) → ℝ → ℝ
  | [], _ => 0
  | [p], _ => p.2
  | p :: q :: rest, x =>
    if x ≤ p.1 then p.2
    else if x ≤ q.1 then p.2 + (q.2 - p.2) * (x - p.1) / (q.1 - p.1)
    else npInterp (q :: rest) x

/-- The interpolation x axis: business days from the reference date for
BUS/252, otherwise plain day differences. -/
def xAxis (dc : DayCount) (cal : List ℤ) (ref d : ℤ) : ℤ :=
  match dc with
  | .BUS252 => busday_count cal ref d
  | _ => d - ref

/-- `Curve.interp` at a single date. -/
noncomputable def Curve.interp (c : Curve) (d : ℤ) : Except String ℝ :=
  let x : ℝ := ((xAxis c.day_count c.cal c.ref_date d : ℤ) : ℝ)
  match c.interp_method with
  | .EXP =>
    let dcl := max (min d (c.end_dates.getLastD 0)) (c.end_dates.headD 0)
    let pts := (c.ndays.map (fun n => ((n : ℤ) : ℝ))).zip
      (c.factors.map Real.log)
    fct2rate (Real.exp (npInterp pts x)) c.ref_date dcl
      c.compounding c.day_count c.cal
  | .LIN =>
    .ok (npInterp ((c.ndays.map (fun n => ((n : ℤ) : ℝ))).zip c.rates) x)

/-! ### The pypctools public calendar layer (`Calendar.py`)

The package's holiday files (`Calendars/<CAL>.xml`) are an external resource;
they are modelled as a lookup function from calendar code to an optional
holiday list.  The process-wide `_CALENDARS` cache is memoization and is
modelled transparently. -/

inductive CalError
  | notFound (cal : String)
  | valueErr (msg : String)
deriving DecidableEq

/-- Python `str.upper()` (character-wise uppercase). -/
def pyUpper (s : String) : String := ⟨s.data.map Char.toUpper⟩

def wsSplitGo (cur : List Char) : List Char → List (List Char)
  | [] => if cur.isEmpty then [] else [cur.reverse]
  | c :: cs =>
    if c.isWhitespace then
      if cur.isEmpty then wsSplitGo [] cs
      else cur.reverse :: wsSplitGo [] cs
    else wsSplitGo (c :: cur) cs

/-- Python `str.split()`: split on whitespace runs, dropping empty pieces. -/
def pySplitWs (s : String) : List String :=
  (wsSplitGo [] s.data).map (fun w => ⟨w⟩)

/-- `_load_calendar`: a missing holiday source surfaces as the
not-found/invalid-calendar error. -/
def loadCalendar (env : String → Option (List ℤ)) (c : String) :
    Except CalError (List ℤ) :=
  match env c with
  | some h => .ok h
  | none => .error (.notFound c)

/-- `_get_bdaycalendar`: uppercase, split into codes, load each, and merge
holiday sets for a cross calendar. -/
def getBdaycalendar (env : String → Option (List ℤ)) (cal : String) :
    Except CalError (List ℤ) :=
  match (pySplitWs (pyUpper cal)).mapM (loadCalendar env) with
  | .error e => .error e
  | .ok hss =>
    match hss with
    | [] => .error (.valueErr "Unexpected calendar")
    | [h] => .ok h
    | hs => .ok hs.flatten

/-- Public `isbd` (scalar date). -/
def isbd (env : String → Option (List ℤ)) (d : ℤ) (cal : String) :
    Except CalError Bool :=
  match getBdaycalendar env cal with
  | .error e => .error e
  | .ok h => .ok (isbdCore h d)

/-- Public `bdbetween` (scalar dates). -/
def bdbetween (env : String → Option (List ℤ)) (s e : ℤ) (cal : String) :
    Except CalError ℤ :=
  match getBdaycalendar env cal with
  | .error e => .error e
  | .ok h => .ok (busday_count h s e)

inductive Roll
  | raiseInvalid
  | nat
  | forward
  | following
  | backward
  | preceding
  | modifiedfollowing
  | modifiedpreceding

/-- First business day at or after `d`.  The search window always contains a
business day (any 7 consecutive days hold at least 5 weekdays, and holidays
are a finite list), so the fallback branch is unreachable. -/
def nextBdSearch (h : List ℤ) (d : ℤ) : ℤ :=
  match (List.range (7 * (h.length + 1) + 7)).find?
      (fun k => isbdCore h (d + (k : ℤ))) with
  | some k => d + (k : ℤ)
  | none => d

/-- First business day at or before `d`. -/
def prevBdSearch (h : List ℤ) (d : ℤ) : ℤ :=
  match (List.range (7 * (h.length + 1) + 7)).find?
      (fun k => isbdCore h (d - (k : ℤ))) with
  | some k => d - (k : ℤ)
  | none => d

/-- The numpy roll conventions applied to a possibly invalid day. -/
def rollDate (h : List ℤ) (roll : Roll) (d : ℤ) : Except CalError ℤ :=
  if isbdCore h d then .ok d
  else
    match roll with
    | .raiseInvalid => .error (.valueErr "Non-business day date")
    | .nat => .error (.valueErr "NaT")
    | .forward => .ok (nextBdSearch h d)
    | .following => .ok (nextBdSearch h d)
    | .backward => .ok (prevBdSearch h d)
    | .preceding => .ok (prevBdSearch h d)
    | .modifiedfollowing =>
      let f := nextBdSearch h d
      .ok (if monthOf f ≠ monthOf d then prevBdSearch h d else f)
    | .modifiedpreceding =>
      let b := prevBdSearch h d
      .ok (if monthOf b ≠ monthOf d then nextBdSearch h d else b)

def forwardN (h : List ℤ) (d : ℤ) : ℕ → ℤ
  | 0 => d
  | n + 1 => forwardN h (nextBdSearch h (d + 1)) n

def backwardN (h : List ℤ) (d : ℤ) : ℕ → ℤ
  | 0 => d
  | n + 1 => backwardN h (prevBdSearch h (d - 1)) n

/-- Public `offsetdate` (scalar): roll, then offset by business days. -/
def offsetdate (env : String → Option (List ℤ)) (d : ℤ) (off : ℤ)
    (roll : Roll) (cal : String) : Except CalError ℤ :=
  match getBdaycalendar env cal with
  | .error e => .error e
  | .ok h =>
    match rollDate h roll d with
    | .error e => .error e
    | .ok d0 =>
      .ok (if 0 ≤ off then forwardN h d0 off.toNat
           else backwardN h d0 (-off).toNat)

def rangeFwd (h : List ℤ) : ℤ → ℕ → List ℤ
  | _, 0 => []
  | d, n + 1 => d :: rangeFwd h (nextBdSearch h (d + 1)) n

def rangeBwd (h : List ℤ) : ℤ → ℕ → List ℤ
  | _, 0 => []
  | d, n + 1 => d :: rangeBwd h (prevBdSearch h (d - 1)) n

/-- Public `bday_range`: exactly two of (start, end, periods) must be given,
then the calendar is resolved and the business-day sequence generated. -/
def bday_range (env : String → Option (List ℤ)) (start stop : Option ℤ)
    (periods : Option ℕ) (cal : String) : Except CalError (List ℤ) :=
  let noneCount := (if start.isNone then 1 else 0) +
    (if stop.isNone then 1 else 0) + (if periods.isNone then 1 else 0)
  if noneCount ≠ 1 then
    .error (.valueErr
      "Of the three parameters (start, end, periods), exactly two must be specified")
  else
    match getBdaycalendar env cal with
    | .error e => .error e
    | .ok h =>
      match start, stop, periods with
      | some a, some b, none =>
        .ok (if a ≤ b then
          (((List.range (b - a + 1).toNat).map (fun k => a + (k : ℤ))).filter
            (isbdCore h))
          else [])
      | some a, none, some n =>
        .ok (rangeFwd h (if isbdCore h a then a else nextBdSearch h a) n)
      | none, some b, some n =>
        .ok ((rangeBwd h (if isbdCore h b then b else prevBdSearch h b) n).reverse)
      | _, _, _ => .error (.valueErr "Unexpected parameters")

/-! ### Tenor labels (`Bucket.py`, class `Label`) -/

structure Label where
  y : ℕ
  m : ℕ
  w : ℕ
  d : ℕ
  text : String
deriving DecidableEq

/-- The ordering key `D + 7 W + 30 M + 360 Y` (`_dc_count`). -/
def Label.dc_count (l : Label) : ℕ :=
  l.d + 7 * l.w + 30 * l.m + 360 * l.y

/-- `Label.__eq__`: comparison is by the day-count key alone. -/
def labelEq (a b : Label) : Bool := a.dc_count == b.dc_count

/-- `Label.__le__`. -/
def labelLe (a b : Label) : Bool := a.dc_count ≤ b.dc_count

/-- The string fed to `hash` by `Label.__hash__` (`hash(repr(self))`):
derived from the label text, not from the day-count key. -/
def Label.hashKey (l : Label) : String := "<Label " ++ l.text ++ ">"

/-- `re.findall` for the pattern of one or more digits followed by a unit
letter, as a left-to-right scan: a pending digit run followed by a unit
letter yields a match; any other character discards the pending run. -/
def pyFindallGo (digits : List Char) : List Char → List (List Char × Char)
  | [] => []
  | c :: cs =>
    if c.isDigit then pyFindallGo (digits ++ [c]) cs
    else if (c = 'Y' ∨ c = 'M' ∨ c = 'W' ∨ c = 'D') ∧ digits ≠ [] then
      (digits, c) :: pyFindallGo [] cs
    else pyFindallGo [] cs

def digitsToNat (ds : List Char) : ℕ :=
  ds.foldl (fun n c => 10 * n + (c.toNat - 48)) 0

/-- Python `str.isupper()`: at least one cased character, and every cased
character is uppercase. -/
def pyIsUpper (cs : List Char) : Bool :=
  let cased := cs.filter Char.isAlpha
  !(cased.isEmpty) && cased.all Char.isUpper

/-- The Y-M-W-D order map (`_letter_order_map`). -/
def letterOrder (c : Char) : ℕ :=
  if c = 'Y' then 0 else if c = 'M' then 1 else if c = 'W' then 2 else 3

def isSortedLeNatB : List ℕ → Bool
  | [] => true
  | [_] => true
  | a :: b :: t => decide (a ≤ b) && isSortedLeNatB (b :: t)

/-- `Label.__init__` on a string argument: uppercase check, regex findall,
full-coverage check, repeated-letter check, Y-M-W-D order check, then the
unit-count map.  Zero counts are permitted (the zero check in the source is
commented out). -/
def parseLabel (s : String) : Except String Label :=
  let cs := s.data
  if !(pyIsUpper cs) then .error "Given label must be uppercase"
  else
    let ms := pyFindallGo [] cs
    if ms.isEmpty then .error "Invalid label format"
    else if !((ms.map (fun t => t.1 ++ [t.2])).flatten == cs) then
      .error "Invalid label format"
    else
      let letters := ms.map (fun t => t.2)
      if letters.any (fun u => 1 < cs.count u) then
        .error "Repeated letters in given label"
      else if decide (1 < letters.length) &&
          !(isSortedLeNatB (letters.map letterOrder)) then
        .error "Label must be in Y-M-W-D order"
      else
        let getUnit : Char → ℕ := fun u =>
          match ms.find? (fun t => t.2 == u) with
          | some t => digitsToNat t.1
          | none => 0
        .ok { y := getUnit 'Y', m := getUnit 'M', w := getUnit 'W',
              d := getUnit 'D', text := s }

/-- The argument to the `Label` constructor: an existing `Label` instance or
a string. -/
inductive LabelArg
  | fromLabel (l : Label)
  | fromString (s : String)

/-- `Label(...)`: `__new__` returns an existing `Label` argument unchanged
and `__init__` skips all validation for it; a string argument is parsed. -/
def labelCtor : LabelArg → Except String Label
  | .fromLabel l => .ok l
  | .fromString s => parseLabel s

/-! ### Buckets and value redistribution (`Bucket.py`, class `Bucket`)

A `Bucket` is a pandas Series keyed by `Label`s; a missing `values` argument
stores NaN per entry, modelled as `Option`.  Values are generic over an
ordered field so that the rational examples are decidable while the general
statements live over ℝ. -/

structure Bucket (α : Type) where
  entries : List (Label × Option α)

/-- The duplicate-index check `ix.equals(ix.unique())`.  pandas `unique`
deduplicates through a hash table keyed by `Label.__hash__`, which is derived
from the label text, so only labels with identical text collapse; an
unchanged index is exactly one with pairwise distinct texts. -/
def indexUniqueCheck : List Label → Bool
  | [] => true
  | l :: t => !(t.any (fun x => x.text == l.text)) && indexUniqueCheck t

def mkBucket {α : Type} (labels : List String) (values : Option (List α)) :
    Except String (Bucket α) :=
  match labels.mapM parseLabel with
  | .error m => .error m
  | .ok ix =>
    if !(indexUniqueCheck ix) then
      .error "Given labels must be all unique"
    else
      match values with
      | none =>
        .ok ⟨(ix.map (fun l => (l, (none : Option α)))).insertionSort
          (fun a b => a.1.dc_count ≤ b.1.dc_count)⟩
      | some vs =>
        if vs.length ≠ ix.length then
          .error "Length of passed values does not match length of index"
        else
          .ok ⟨(ix.zip (vs.map some)).insertionSort
            (fun a b => a.1.dc_count ≤ b.1.dc_count)⟩

/-- `find_closest` inside `distribute_values`: scan the reversed target keys
dropping those above `nd` (the last target key at or below `nd`), and scan
the target keys dropping those below `nd` (the first target key at or above
`nd`). -/
def find_closest (to_ndays : List ℕ) (nd : ℕ) : Option ℕ × Option ℕ :=
  ((to_ndays.reverse.dropWhile (fun t => decide (nd < t))).head?,
   (to_ndays.dropWhile (fun t => decide (t < nd))).head?)

/-- `distributed[i] += v`. -/
def addAt {α : Type} [LinearOrderedField α] (dist : List α) (i : ℕ) (v : α) :
    List α :=
  dist.set i (dist.getD i 0 + v)

/-- One iteration of the distribution loop for a source entry `(k, value)`. -/
def distStep {α : Type} [LinearOrderedField α] (to_ndays : List ℕ)
    (dist : List α) (kv : ℕ × α) : List α :=
  match find_closest to_ndays kv.1 with
  | (none, none) => dist
  | (none, some r) => addAt dist (to_ndays.indexOf r) kv.2
  | (some l, none) => addAt dist (to_ndays.indexOf l) kv.2
  | (some l, some r) =>
    if l = r then addAt dist (to_ndays.indexOf l) kv.2
    else
      let pl : α := ((r : α) - (kv.1 : α)) / ((r : α) - (l : α))
      let pr : α := ((kv.1 : α) - (l : α)) / ((r : α) - (l : α))
      addAt (addAt dist (to_ndays.indexOf l) (pl * kv.2))
        (to_ndays.indexOf r) (pr * kv.2)

/-- The distribution loop: start from `[0] * len(verts)` and allocate each
source `(dc_count, value)` pair.  The `(none, none)` case only arises for an
empty target grid, where the source asserts. -/
def distributeCore {α : Type} [LinearOrderedField α]
    (src : List (ℕ × α)) (to_ndays : List ℕ) : List α :=
  src.foldl (distStep to_ndays) (List.replicate to_ndays.length 0)

def nanMsg : String := "Cannot distribute NaN values"

/-- `Bucket.distribute_values` (the `return_bucket=False` path): reject NaN
values, parse the target labels, distribute, and check the conservation
assertion `np.isclose(sum(distributed), sum(values), atol=1e-2)`. -/
def distribute_values {α : Type} [LinearOrderedField α] (b : Bucket α)
    (verts : List LabelArg) : Except String (List α) :=
  if b.entries.any (fun e => e.2.isNone) then .error nanMsg
  else
    match verts.mapM labelCtor with
    | .error m => .error m
    | .ok vls =>
      let to_ndays := vls.map Label.dc_count
      let src := b.entries.map (fun e => (e.1.dc_count, e.2.getD 0))
      let dist := distributeCore src to_ndays
      if |dist.sum - (src.map Prod.snd).sum| ≤ (1 / 100 : α) then .ok dist
      else .error "Distribution does not conserve the sum"

def maxVal? : List ℕ → Option ℕ
  | [] => none
  | a :: t =>
    match maxVal? t with
    | none => some a
    | some m => some (max a m)

def minVal? : List ℕ → Option ℕ
  | [] => none
  | a :: t =>
    match minVal? t with
    | none => some a
    | some m => some (min a m)

/-- Nearest target key at or below `k` by value (the greatest among those
`≤ k`), as the specification words it. -/
def nearestLeSpec (to_ndays : List ℕ) (k : ℕ) : Option ℕ :=
  maxVal? (to_ndays.filter (fun t => decide (t ≤ k)))

/-- Nearest target key at or above `k` by value (the least among those
`≥ k`), as the specification words it. -/
def nearestGeSpec (to_ndays : List ℕ) (k : ℕ) : Option ℕ :=
  minVal? (to_ndays.filter (fun t => decide (k ≤ t)))

/-- The example bucket `Bucket(["1Y", "3Y"], [100, -100])`. -/
def bEx13 : Bucket ℚ :=
  ⟨[({ y := 1, m := 0, w := 0, d := 0, text := "1Y" }, some 100),
    ({ y := 3, m := 0, w := 0, d := 0, text := "3Y" }, some (-100))]⟩

/-- A concrete flat curve (zero rates on end dates 10 and 20, ACT/365,
linear compounding) as `Curve.__init__` builds it. -/
noncomputable def c5curve : Curve :=
  { ref_date := 0, start_dates := [0, 0], end_dates := [10, 20],
    interp_method := InterpMethod.EXP, compounding := Compounding.LINEAR,
    day_count := DayCount.ACT365, cal := [], factors := [1, 1],
    rates := [0, 0], ndays := [10, 20] }

/-! ### General helper lemmas -/

theorem mapM_ok_length {α β : Type} (f : α → Except String β) :
    ∀ (l : List α) (l2 : List β), l.mapM f = .ok l2 → l2.length = l.length := by
  intro l
  induction l with
  | nil => intro l2 h; simp only [List.mapM_nil, pure, Except.pure] at h; cases h; rfl
  | cons a t ih =>
    intro l2 h
    simp only [List.mapM_cons, bind, Except.bind, pure, Except.pure] at h
    cases hfa : f a with
    | error m => rw [hfa] at h; cases h
    | ok b =>
      rw [hfa] at h
      cases hmt : t.mapM f with
      | error m => rw [hmt] at h; cases h
      | ok bs =>
        rw [hmt] at h
        cases h
        simp [ih bs hmt]

theorem mapM_fromLabel : ∀ (vs : List Label),
    (vs.map LabelArg.fromLabel).mapM labelCtor = .ok vs := by
  intro vs
  induction vs with
  | nil => rfl
  | cons a t ih =>
    simp only [List.map_cons, List.mapM_cons, ih, labelCtor, bind, Except.bind,
      pure, Except.pure]

/-! ### Claim theorems -/

/-- C9: constructing a `Label` from an existing `Label` returns it unchanged:
the constructor skips all validation and cannot fail on a `Label` argument. -/
theorem c9_label_ctor_idempotent (l : Label) :
    labelCtor (.fromLabel l) = .ok l := rfl

/-- C8: `Label("1W")` and `Label("7D")` have the same day-count key 7, so
they compare equal, yet the string hashed by `__hash__` differs, so label
equality is not hash-consistent. -/
theorem c8_label_eq_not_hash_consistent :
    parseLabel "1W" = .ok { y := 0, m := 0, w := 1, d := 0, text := "1W" } ∧
    parseLabel "7D" = .ok { y := 0, m := 0, w := 0, d := 7, text := "7D" } ∧
    labelEq { y := 0, m := 0, w := 1, d := 0, text := "1W" }
      { y := 0, m := 0, w := 0, d := 7, text := "7D" } = true ∧
    Label.dc_count { y := 0, m := 0, w := 1, d := 0, text := "1W" } = 7 ∧
    Label.dc_count { y := 0, m := 0, w := 0, d := 7, text := "7D" } = 7 ∧
    Label.hashKey { y := 0, m := 0, w := 1, d := 0, text := "1W" } ≠
      Label.hashKey { y := 0, m := 0, w := 0, d := 7, text := "7D" } :=
  ⟨rfl, rfl, by decide, by decide, by decide, by decide⟩

/-- C6 (amended): `bdbetween` is a total signed business-day count — it
never fails on reversed date order, and for `e < s` the count is at most 0,
strictly negative exactly when a business day lies in `[e, s)`; in contrast
the conversion functions fail with the domain error whenever any entry's
term is negative, and succeed when no term is negative. -/
theorem c6_signed_count_vs_validated_conversion :
    (∀ (hols : List ℤ) (s e : ℤ), e < s → busday_count hols s e ≤ 0) ∧
    (∀ (hols : List ℤ) (s e : ℤ), e < s →
      (busday_count hols s e < 0 ↔ 0 < countIn hols e (s - e).toNat)) ∧
    (∀ (env : String → Option (List ℤ)) (cal : String) (h : List ℤ)
      (s e : ℤ), getBdaycalendar env cal = .ok h →
      bdbetween env s e cal = .ok (busday_count h s e)) ∧
    (∀ (rs fs : List ℝ) (s : ℤ) (es : List ℤ) (comp : Compounding)
      (dc : DayCount) (cal : List ℤ),
      ((es.map (calcTerm dc cal s)).any (fun t => decide (t < 0))) = true →
      rate2fctV rs s es comp dc cal = .error negTermMsg ∧
      fct2rateV fs s es comp dc cal = .error negTermMsg) ∧
    (∀ (rs fs : List ℝ) (s : ℤ) (es : List ℤ) (comp : Compounding)
      (dc : DayCount) (cal : List ℤ),
      ((es.map (calcTerm dc cal s)).any (fun t => decide (t < 0))) = false →
      (rate2fctV rs s es comp dc cal).isOk = true ∧
      (fct2rateV fs s es comp dc cal).isOk = true) := by
  refine ⟨?_, ?_, ?_, ?_, ?_⟩
  · intro hols s e h
    unfold busday_count
    rw [if_neg (not_le.mpr h)]
    omega
  · intro hols s e h
    unfold busday_count
    rw [if_neg (not_le.mpr h)]
    omega
  · intro env cal h s e hres
    unfold bdbetween
    rw [hres]
  · intro rs fs s es comp dc cal hany
    constructor
    · simp only [rate2fctV]
      rw [if_pos hany]
    · simp only [fct2rateV]
      rw [if_pos hany]
  · intro rs fs s es comp dc cal hany
    have hno : ¬ ((es.map (calcTerm dc cal s)).any
        (fun t => decide (t < 0)) = true) := by
      rw [hany]; simp
    constructor
    · simp only [rate2fctV]
      rw [if_neg hno]
      rfl
    · simp only [fct2rateV]
      rw [if_neg hno]
      rfl

/-- C6 witness: the domain-error side at a concrete negative-term entry. -/
theorem c6_signed_count_vs_validated_conversion_witness :
    (([(5 : ℤ)].map (calcTerm DayCount.ACT360 [] 10)).any
      (fun t => decide (t < 0))) = true ∧
    rate2fctV [(1 : ℝ)] 10 [5] Compounding.LINEAR DayCount.ACT360 [] =
      .error negTermMsg := by
  have h : (([(5 : ℤ)].map (calcTerm DayCount.ACT360 [] 10)).any
      (fun t => decide (t < 0))) = true := by norm_num [calcTerm]
  exact ⟨h, (c6_signed_count_vs_validated_conversion.2.2.2.1
    [(1 : ℝ)] [] 10 [5] Compounding.LINEAR DayCount.ACT360 [] h).1⟩

/-- C6 counterexample to the claim as stated: 1970-01-04 (a Sunday, day 3)
back to 1970-01-03 (a Saturday, day 2) has `end < start` but the business-day
count is 0, not negative. -/
theorem c6_reversed_weekend_count_not_negative :
    (2 : ℤ) < 3 ∧ weekday 2 = 5 ∧ weekday 3 = 6 ∧
    busday_count [] 3 2 = 0 ∧ ¬ busday_count [] 3 2 < 0 := by
  refine ⟨?_, ?_, ?_, ?_, ?_⟩ <;> decide

/-- C7: when the (single-code) calendar cannot be resolved to a holiday
source, every calendar-engine operation fails with the not-found error:
`isbd`, `bdbetween`, `offsetdate`, and `bday_range` (once its two-of-three
parameter check passes). -/
theorem c7_unknown_calendar_not_found (env : String → Option (List ℤ))
    (cal : String) (code : String)
    (hsplit : pySplitWs (pyUpper cal) = [code]) (henv : env code = none) :
    (∀ d : ℤ, isbd env d cal = .error (.notFound code)) ∧
    (∀ s e : ℤ, bdbetween env s e cal = .error (.notFound code)) ∧
    (∀ (d off : ℤ) (roll : Roll),
      offsetdate env d off roll cal = .error (.notFound code)) ∧
    (∀ (start stop : Option ℤ) (periods : Option ℕ),
      ((if start.isNone then 1 else 0) + (if stop.isNone then 1 else 0) +
        (if periods.isNone then 1 else 0) : ℕ) = 1 →
      bday_range env start stop periods cal = .error (.notFound code)) := by
  have hg : getBdaycalendar env cal = .error (.notFound code) := by
    unfold getBdaycalendar
    rw [hsplit]
    simp [List.mapM, List.mapM.loop, loadCalendar, henv, bind, Except.bind]
  refine ⟨?_, ?_, ?_, ?_⟩
  · intro d
    unfold isbd
    rw [hg]
  · intro s e
    unfold bdbetween
    rw [hg]
  · intro d off roll
    unfold offsetdate
    rw [hg]
  · intro start stop periods hcount
    unfold bday_range
    rw [if_neg (by omega)]
    rw [hg]

/-- C7 witness: a concrete unresolvable calendar code. -/
theorem c7_unknown_calendar_not_found_witness :
    pySplitWs (pyUpper "XX") = ["XX"] ∧
    ((fun _ => none) : String → Option (List ℤ)) "XX" = none ∧
    isbd (fun _ => none) 0 "XX" = .error (.notFound "XX") ∧
    bdbetween (fun _ => none) 0 5 "XX" = .error (.notFound "XX") ∧
    offsetdate (fun _ => none) 0 2 Roll.forward "XX" = .error (.notFound "XX") ∧
    bday_range (fun _ => none) (some 0) (some 5) none "XX" =
      .error (.notFound "XX") := by
  have hsplit : pySplitWs (pyUpper "XX") = ["XX"] := by decide
  have h := c7_unknown_calendar_not_found (fun _ => none) "XX" "XX" hsplit rfl
  exact ⟨hsplit, rfl, h.1 0, h.2.1 0 5, h.2.2.1 0 2 Roll.forward,
    h.2.2.2 (some 0) (some 5) none (by decide)⟩

/-! ### List helper lemmas for the closest-key search -/

theorem head?_dropWhile_eq_find? (p : ℕ → Bool) :
    ∀ l : List ℕ, (l.dropWhile p).head? = l.find? (fun a => !(p a)) := by
  intro l
  induction l with
  | nil => rfl
  | cons a t ih =>
    cases hpa : p a with
    | false =>
      rw [List.dropWhile_cons, if_neg (by simp [hpa]),
        List.find?_cons_of_pos _ (by simp [hpa])]
      rfl
    | true =>
      rw [List.dropWhile_cons, if_pos (by simp [hpa]),
        List.find?_cons_of_neg _ (by simp [hpa]), ih]

theorem find?_append_or (q : ℕ → Bool) : ∀ l1 l2 : List ℕ,
    (l1 ++ l2).find? q =
      match l1.find? q with
      | some a => some a
      | none => l2.find? q := by
  intro l1 l2
  induction l1 with
  | nil => rfl
  | cons a t ih =>
    rw [List.cons_append]
    cases hqa : q a with
    | true =>
      rw [List.find?_cons_of_pos _ hqa, List.find?_cons_of_pos _ hqa]
    | false =>
      rw [List.find?_cons_of_neg _ (by simp [hqa]),
        List.find?_cons_of_neg _ (by simp [hqa]), ih]

theorem getLast?_cons_elim (a : ℕ) (xs : List ℕ) :
    (a :: xs).getLast? =
      match xs.getLast? with
      | none => some a
      | some b => some b := by
  cases xs with
  | nil => rfl
  | cons b t =>
    rw [List.getLast?_cons_cons]
    cases h : (b :: t).getLast? with
    | none =>
      rw [List.getLast?_eq_none_iff] at h
      cases h
    | some c => simp

theorem find?_reverse_eq_getLast?_filter (q : ℕ → Bool) :
    ∀ l : List ℕ, l.reverse.find? q = (l.filter q).getLast? := by
  intro l
  induction l with
  | nil => rfl
  | cons a t ih =>
    rw [List.reverse_cons, find?_append_or, ih]
    cases hqa : q a with
    | false =>
      rw [List.filter_cons_of_neg (by simp [hqa])]
      cases hft : (List.filter q t).getLast? with
      | none => rw [List.find?_cons_of_neg _ (by simp [hqa])]; rfl
      | some x => rfl
    | true =>
      rw [List.filter_cons_of_pos (by simp [hqa]), getLast?_cons_elim]
      cases hft : (List.filter q t).getLast? with
      | none => rw [List.find?_cons_of_pos _ hqa]
      | some x => rfl

theorem find?_eq_head?_filter (q : ℕ → Bool) :
    ∀ l : List ℕ, l.find? q = (l.filter q).head? := by
  intro l
  induction l with
  | nil => rfl
  | cons a t ih =>
    cases hqa : q a with
    | true =>
      rw [List.find?_cons_of_pos _ hqa, List.filter_cons_of_pos (by simp [hqa])]
      rfl
    | false =>
      rw [List.find?_cons_of_neg _ (by simp [hqa]),
        List.filter_cons_of_neg (by simp [hqa]), ih]

theorem maxVal?_mem : ∀ (l : List ℕ) (m : ℕ), maxVal? l = some m → m ∈ l := by
  intro l
  induction l with
  | nil => intro m h; cases h
  | cons a t ih =>
    intro m h
    unfold maxVal? at h
    cases hmt : maxVal? t with
    | none => rw [hmt] at h; cases h; exact List.mem_cons_self a t
    | some b =>
      rw [hmt] at h
      cases h
      rcases max_choice a b with hc | hc <;> rw [hc]
      · exact List.mem_cons_self a t
      · exact List.mem_cons_of_mem a (ih b hmt)

theorem minVal?_mem : ∀ (l : List ℕ) (m : ℕ), minVal? l = some m → m ∈ l := by
  intro l
  induction l with
  | nil => intro m h; cases h
  | cons a t ih =>
    intro m h
    unfold minVal? at h
    cases hmt : minVal? t with
    | none => rw [hmt] at h; cases h; exact List.mem_cons_self a t
    | some b =>
      rw [hmt] at h
      cases h
      rcases min_choice a b with hc | hc <;> rw [hc]
      · exact List.mem_cons_self a t
      · exact List.mem_cons_of_mem a (ih b hmt)

theorem getLast?_eq_maxVal (l : List ℕ) (h : l.Pairwise (· ≤ ·)) :
    l.getLast? = maxVal? l := by
  induction l with
  | nil => rfl
  | cons a t ih =>
    rw [List.pairwise_cons] at h
    have hunf : maxVal? (a :: t) =
        match maxVal? t with
        | none => some a
        | some m => some (max a m) := rfl
    rw [getLast?_cons_elim, ih h.2, hunf]
    cases hmt : maxVal? t with
    | none => rfl
    | some m =>
      have hm : a ≤ m := h.1 m (maxVal?_mem t m hmt)
      simp [max_eq_right hm]

theorem head?_eq_minVal (l : List ℕ) (h : l.Pairwise (· ≤ ·)) :
    l.head? = minVal? l := by
  cases l with
  | nil => rfl
  | cons a t =>
    rw [List.pairwise_cons] at h
    have hunf : minVal? (a :: t) =
        match minVal? t with
        | none => some a
        | some m => some (min a m) := rfl
    rw [hunf]
    cases hmt : minVal? t with
    | none => rfl
    | some m =>
      have hm : a ≤ m := h.1 m (minVal?_mem t m hmt)
      simp [min_eq_left hm]

/-- C10 counterexample to the claim as stated: a `Bucket` built from an empty
label list without values has no NaN entry, so `distribute_values` succeeds
(returning zeros) instead of failing. -/
theorem c10_empty_bucket_distributes :
    mkBucket ([] : List String) (none : Option (List ℚ)) = .ok ⟨[]⟩ ∧
    distribute_values (⟨[]⟩ : Bucket ℚ) [LabelArg.fromString "1Y"] = .ok [0] ∧
    (.ok [0] : Except String (List ℚ)) ≠ .error nanMsg := by
  refine ⟨rfl, ?_, by simp⟩
  have hm : List.mapM labelCtor [LabelArg.fromString "1Y"] =
      .ok [{ y := 1, m := 0, w := 0, d := 0, text := "1Y" }] := rfl
  simp only [distribute_values, List.any_nil, Bool.false_eq_true, if_false, hm,
    distributeCore, List.map_nil, List.foldl_nil, List.map_cons,
    List.length_cons, List.length_nil, List.replicate, List.sum_cons,
    List.sum_nil]
  norm_num

/-- C10 (amended): a `Bucket` built from a nonempty label list without a
values argument stores NaN in every entry, and `distribute_values` on it
fails with the NaN guard error for every target grid. -/
theorem c10_nan_bucket {α : Type} [LinearOrderedField α]
    (labels : List String) (b : Bucket α) (hne : labels ≠ [])
    (hok : mkBucket labels (none : Option (List α)) = .ok b) :
    (∀ e ∈ b.entries, e.2 = none) ∧
    (∀ verts : List LabelArg, distribute_values b verts = .error nanMsg) := by
  unfold mkBucket at hok
  cases hparse : labels.mapM parseLabel with
  | error m => rw [hparse] at hok; simp at hok
  | ok ix =>
    rw [hparse] at hok
    by_cases hu : indexUniqueCheck ix = true
    · simp only [hu, Bool.not_true, Bool.false_eq_true, if_false,
        Except.ok.injEq] at hok
      have hperm := List.perm_insertionSort
        (fun (a b : Label × Option α) => a.1.dc_count ≤ b.1.dc_count)
        (ix.map (fun l => (l, (none : Option α))))
      have hmem : ∀ e ∈ b.entries, e.2 = none := by
        intro e he
        rw [← hok] at he
        have : e ∈ ix.map (fun l => (l, (none : Option α))) :=
          hperm.mem_iff.mp he
        rcases List.mem_map.mp this with ⟨l, _, hel⟩
        rw [← hel]
      refine ⟨hmem, ?_⟩
      intro verts
      have hlen : b.entries.length = labels.length := by
        rw [← hok, hperm.length_eq, List.length_map]
        exact mapM_ok_length parseLabel labels ix hparse
      have hne2 : b.entries ≠ [] := by
        intro hcon
        rw [hcon] at hlen
        exact hne (List.length_eq_zero.mp hlen.symm)
      have hany : b.entries.any (fun e => e.2.isNone) = true := by
        rw [List.any_eq_true]
        cases hbe : b.entries with
        | nil => exact absurd hbe hne2
        | cons e t =>
          refine ⟨e, List.mem_cons_self e t, ?_⟩
          have := hmem e (by rw [hbe]; exact List.mem_cons_self e t)
          rw [this]
          rfl
      unfold distribute_values
      rw [if_pos hany]
    · simp only [hu, Bool.not_false] at hok
      simp at hok

/-- C10 witness: a concrete one-label bucket without values. -/
theorem c10_nan_bucket_witness :
    (["1Y"] : List String) ≠ [] ∧
    mkBucket ["1Y"] (none : Option (List ℚ)) =
      .ok ⟨[({ y := 1, m := 0, w := 0, d := 0, text := "1Y" }, none)]⟩ ∧
    distribute_values
      (⟨[({ y := 1, m := 0, w := 0, d := 0, text := "1Y" }, none)]⟩ : Bucket ℚ)
      [LabelArg.fromString "5Y"] = .error nanMsg := by
  have hne : (["1Y"] : List String) ≠ [] := by simp
  have hmk : mkBucket ["1Y"] (none : Option (List ℚ)) =
      .ok ⟨[({ y := 1, m := 0, w := 0, d := 0, text := "1Y" }, none)]⟩ := rfl
  exact ⟨hne, hmk, (c10_nan_bucket ["1Y"] _ hne hmk).2 [LabelArg.fromString "5Y"]⟩

/-- `find_closest` computed positionally: the first component is the last
element of the target grid at or below `nd`, the second the first element at
or above `nd`. -/
theorem find_closest_positional (tos : List ℕ) (k : ℕ) :
    find_closest tos k =
      ((tos.filter (fun t => decide (t ≤ k))).getLast?,
       (tos.filter (fun t => decide (k ≤ t))).head?) := by
  unfold find_closest
  rw [head?_dropWhile_eq_find?, head?_dropWhile_eq_find?]
  have e1 : (fun (t : ℕ) => !(decide (k < t))) = fun t => decide (t ≤ k) := by
    funext t
    rw [← decide_not]
    exact decide_eq_decide.mpr (by omega)
  have e2 : (fun (t : ℕ) => !(decide (t < k))) = fun t => decide (k ≤ t) := by
    funext t
    rw [← decide_not]
    exact decide_eq_decide.mpr (by omega)
  rw [e1, e2, find?_reverse_eq_getLast?_filter, find?_eq_head?_filter]

/-- C4 (amended): `find_closest` is positional, not value-nearest — it
returns the last-positioned target key at or below `k` and the
first-positioned target key at or above `k`; on an ascending-sorted target
grid these coincide with the nearest keys below and above, and the value is
then allocated whole to the one existing side (or the single equal key), or
split as `v(r-k)/(r-l)` onto the left key and `v(k-l)/(r-l)` onto the right
key, each added at the first index holding that key. -/
theorem c4_closest_is_positional {α : Type} [LinearOrderedField α]
    (tos : List ℕ) (k : ℕ) :
    (find_closest tos k =
      ((tos.filter (fun t => decide (t ≤ k))).getLast?,
       (tos.filter (fun t => decide (k ≤ t))).head?)) ∧
    (tos.Pairwise (· ≤ ·) →
      find_closest tos k = (nearestLeSpec tos k, nearestGeSpec tos k)) ∧
    (tos.Pairwise (· ≤ ·) → ∀ (dist : List α) (v : α),
      distStep tos dist (k, v) =
        match nearestLeSpec tos k, nearestGeSpec tos k with
        | none, none => dist
        | none, some r => addAt dist (tos.indexOf r) v
        | some l, none => addAt dist (tos.indexOf l) v
        | some l, some r =>
          if l = r then addAt dist (tos.indexOf l) v
          else addAt (addAt dist (tos.indexOf l)
              ((((r : α) - (k : α)) / ((r : α) - (l : α))) * v))
            (tos.indexOf r) ((((k : α) - (l : α)) / ((r : α) - (l : α))) * v)) := by
  have h1 := find_closest_positional tos k
  have h2 : tos.Pairwise (· ≤ ·) →
      find_closest tos k = (nearestLeSpec tos k, nearestGeSpec tos k) := by
    intro hs
    rw [h1]
    unfold nearestLeSpec nearestGeSpec
    rw [getLast?_eq_maxVal _ (hs.filter _), head?_eq_minVal _ (hs.filter _)]
  refine ⟨h1, h2, ?_⟩
  intro hs dist v
  unfold distStep
  rw [h2 hs]
  cases nearestLeSpec tos k <;> cases nearestGeSpec tos k <;> rfl

/-- C4 witness: on a sorted grid the positional search agrees with the
nearest-key search. -/
theorem c4_closest_is_positional_witness :
    ([30, 90] : List ℕ).Pairwise (· ≤ ·) ∧
    find_closest [30, 90] 50 =
      (nearestLeSpec [30, 90] 50, nearestGeSpec [30, 90] 50) := by
  have hs : ([30, 90] : List ℕ).Pairwise (· ≤ ·) := by decide
  exact ⟨hs, (c4_closest_is_positional (α := ℚ) [30, 90] 50).2.1 hs⟩

/-- C4 counterexample to the claim as stated: with the unsorted target grid
`[90, 30]` and source key 100 the whole value lands on 30 (the
last-positioned key at or below 100), not on the nearest key 90. -/
theorem c4_unsorted_grid_not_nearest :
    distributeCore [(100, (1 : ℚ))] [90, 30] = [0, 1] ∧
    nearestLeSpec [90, 30] 100 = some 90 ∧
    nearestGeSpec [90, 30] 100 = none ∧
    find_closest [90, 30] 100 = (some 30, none) ∧
    ([(0 : ℚ), 1] ≠ [1, 0]) := by
  refine ⟨?_, by decide, by decide, by decide, by decide⟩
  norm_num [distributeCore, distStep, find_closest, addAt, List.replicate_succ]

/-- C1 (amended): for a strictly positive term, and a rate at least -1 under
YIELD compounding, `fct2rate` inverts `rate2fct` exactly (hence within any
tolerance), for every compounding mode and day-count convention. -/
theorem c1_round_trip (comp : Compounding) (dc : DayCount) (cal : List ℤ)
    (s e : ℤ) (r : ℝ) (hterm : 0 < calcTerm dc cal s e)
    (hr : comp = Compounding.YIELD → -1 ≤ r) :
    (match rate2fct r s e comp dc cal with
     | Except.error m => Except.error m
     | Except.ok f => fct2rate f s e comp dc cal) = Except.ok r := by
  have hnn : ¬ (calcTerm dc cal s e < 0) := not_lt.mpr (le_of_lt hterm)
  have htR : (0 : ℝ) < ((calcTerm dc cal s e : ℚ) : ℝ) := by exact_mod_cast hterm
  have htne : ((calcTerm dc cal s e : ℚ) : ℝ) ≠ 0 := ne_of_gt htR
  cases comp with
  | LINEAR =>
    simp only [rate2fct, fct2rate, if_neg hnn, Except.ok.injEq]
    field_simp
  | CONTINUOUS =>
    simp only [rate2fct, fct2rate, if_neg hnn, Except.ok.injEq]
    rw [Real.log_exp]
    exact mul_div_cancel_right₀ r htne
  | YIELD =>
    have h0 : (0 : ℝ) ≤ 1 + r := by linarith [hr rfl]
    simp only [rate2fct, fct2rate, if_neg hnn, Except.ok.injEq]
    rw [← Real.rpow_mul h0, mul_one_div, div_self htne, Real.rpow_one]
    ring

/-- C1 witness: YIELD over ACT/360 with a one-year term round-trips. -/
theorem c1_round_trip_witness :
    (0 : ℚ) < calcTerm DayCount.ACT360 [] 0 360 ∧
    (match rate2fct 1 0 360 Compounding.YIELD DayCount.ACT360 [] with
     | Except.error m => Except.error m
     | Except.ok f => fct2rate f 0 360 Compounding.YIELD DayCount.ACT360 []) =
      Except.ok 1 := by
  have ht : (0 : ℚ) < calcTerm DayCount.ACT360 [] 0 360 := by
    norm_num [calcTerm]
  exact ⟨ht, c1_round_trip Compounding.YIELD DayCount.ACT360 [] 0 360 1 ht
    (fun _ => by norm_num)⟩

/-- C1 counterexample to the claim as stated: the claim admits every
non-negative term, but with term 0 (start = end, accepted by `rate2fct`) the
YIELD round trip returns 0 for rate 1, far outside the 1e-13 tolerance; and
with rate -3 (factor of negative base) and term 2 the YIELD round trip
returns 1 instead of -3. -/
theorem c1_round_trip_cex :
    (match rate2fct 1 0 0 Compounding.YIELD DayCount.ACT360 [] with
     | Except.error m => Except.error m
     | Except.ok f => fct2rate f 0 0 Compounding.YIELD DayCount.ACT360 []) =
      Except.ok 0 ∧
    ¬ (|(0 : ℝ) - 1| ≤ 1 / 10 ^ 13) ∧
    calcTerm DayCount.ACT360 [] 0 0 = 0 ∧
    (match rate2fct (-3) 0 720 Compounding.YIELD DayCount.ACT360 [] with
     | Except.error m => Except.error m
     | Except.ok f => fct2rate f 0 720 Compounding.YIELD DayCount.ACT360 []) =
      Except.ok 1 ∧
    ¬ (|(1 : ℝ) - (-3)| ≤ 1 / 10 ^ 13) := by
  have ht0 : calcTerm DayCount.ACT360 [] 0 0 = 0 := by norm_num [calcTerm]
  have ht2 : calcTerm DayCount.ACT360 [] 0 720 = 2 := by norm_num [calcTerm]
  refine ⟨?_, by norm_num, ht0, ?_, by norm_num⟩
  · have h0n : ¬ ((0 : ℚ) < 0) := by norm_num
    have hr1 : rate2fct 1 0 0 Compounding.YIELD DayCount.ACT360 [] =
        Except.ok 1 := by
      simp only [rate2fct, ht0]
      rw [if_neg h0n]
      simp [Real.rpow_zero]
    have hf1 : fct2rate 1 0 0 Compounding.YIELD DayCount.ACT360 [] =
        Except.ok 0 := by
      simp only [fct2rate, ht0]
      rw [if_neg h0n]
      simp [Real.one_rpow]
    rw [hr1]
    exact hf1
  · have h2n : ¬ ((2 : ℚ) < 0) := by norm_num
    have hfct : (1 + (-3) : ℝ) ^ ((2 : ℚ) : ℝ) = 4 := by
      have hc2 : ((2 : ℚ) : ℝ) = ((2 : ℕ) : ℝ) := by norm_num
      rw [hc2, Real.rpow_natCast]
      norm_num
    have hroot : (4 : ℝ) ^ ((1 : ℝ) / ((2 : ℚ) : ℝ)) = 2 := by
      have h4 : (4 : ℝ) = (2 : ℝ) ^ ((2 : ℕ) : ℝ) := by
        rw [Real.rpow_natCast]
        norm_num
      rw [h4, ← Real.rpow_mul (by norm_num : (0 : ℝ) ≤ 2)]
      norm_num
    have hr2 : rate2fct (-3) 0 720 Compounding.YIELD DayCount.ACT360 [] =
        Except.ok 4 := by
      simp only [rate2fct, ht2]
      rw [if_neg h2n]
      simp only [Except.ok.injEq]
      exact hfct
    have hf2 : fct2rate 4 0 720 Compounding.YIELD DayCount.ACT360 [] =
        Except.ok 1 := by
      simp only [fct2rate, ht2]
      rw [if_neg h2n, hroot]
      norm_num
    rw [hr2]
    exact hf2

/-! ### Sum conservation of the distribution loop -/

theorem mem_of_getLast?_some {a : ℕ} :
    ∀ l : List ℕ, l.getLast? = some a → a ∈ l := by
  intro l
  induction l with
  | nil => intro h; cases h
  | cons x t ih =>
    intro h
    rw [getLast?_cons_elim] at h
    cases hlt : t.getLast? with
    | none => rw [hlt] at h; cases h; exact List.mem_cons_self _ _
    | some b =>
      rw [hlt] at h
      cases h
      exact List.mem_cons_of_mem x (ih hlt)

theorem mem_of_head?_some {a : ℕ} : ∀ l : List ℕ, l.head? = some a → a ∈ l := by
  intro l
  cases l with
  | nil => intro h; cases h
  | cons x t =>
    intro h
    cases h
    exact List.mem_cons_self _ _

theorem find_closest_left_mem {tos : List ℕ} {k l : ℕ} {o : Option ℕ}
    (h : find_closest tos k = (some l, o)) : l ∈ tos := by
  rw [find_closest_positional] at h
  have h1 : (tos.filter (fun t => decide (t ≤ k))).getLast? = some l :=
    congrArg Prod.fst h
  exact List.mem_of_mem_filter (mem_of_getLast?_some _ h1)

theorem find_closest_right_mem {tos : List ℕ} {k r : ℕ} {o : Option ℕ}
    (h : find_closest tos k = (o, some r)) : r ∈ tos := by
  rw [find_closest_positional] at h
  have h2 : (tos.filter (fun t => decide (k ≤ t))).head? = some r :=
    congrArg Prod.snd h
  exact List.mem_of_mem_filter (mem_of_head?_some _ h2)

theorem find_closest_not_both_none {tos : List ℕ} {k : ℕ} (hne : tos ≠ []) :
    find_closest tos k ≠ (none, none) := by
  intro h
  rw [find_closest_positional] at h
  have h1 : (tos.filter (fun t => decide (t ≤ k))).getLast? = none :=
    congrArg Prod.fst h
  have h2 : (tos.filter (fun t => decide (k ≤ t))).head? = none :=
    congrArg Prod.snd h
  rw [List.getLast?_eq_none_iff] at h1
  rw [List.head?_eq_none_iff] at h2
  cases htos : tos with
  | nil => exact hne htos
  | cons a t =>
    have ha : a ∈ tos := by rw [htos]; exact List.mem_cons_self a t
    rcases le_or_lt a k with hak | hak
    · have : a ∈ tos.filter (fun t => decide (t ≤ k)) :=
        List.mem_filter.mpr ⟨ha, by simp [hak]⟩
      rw [h1] at this
      cases this
    · have : a ∈ tos.filter (fun t => decide (k ≤ t)) :=
        List.mem_filter.mpr ⟨ha, by simp [le_of_lt hak]⟩
      rw [h2] at this
      cases this

theorem sum_addAt {α : Type} [LinearOrderedField α] :
    ∀ (dist : List α) (i : ℕ) (v : α), i < dist.length →
      (addAt dist i v).sum = dist.sum + v := by
  intro dist
  induction dist with
  | nil => intro i v h; cases h
  | cons x t ih =>
    intro i v h
    cases i with
    | zero =>
      simp only [addAt, List.set_cons_zero, List.getD_cons_zero, List.sum_cons]
      ring
    | succ j =>
      have hj : j < t.length := by
        simpa using Nat.lt_of_succ_lt_succ h
      simp only [addAt, List.set_cons_succ, List.getD_cons_succ, List.sum_cons]
      have := ih j v hj
      simp only [addAt] at this
      rw [this]
      ring

theorem length_addAt {α : Type} [LinearOrderedField α]
    (dist : List α) (i : ℕ) (v : α) :
    (addAt dist i v).length = dist.length := by
  simp [addAt]

theorem distStep_eq_of_none_none {α : Type} [LinearOrderedField α]
    {tos : List ℕ} (dist : List α) {kv : ℕ × α}
    (hfc : find_closest tos kv.1 = (none, none)) :
    distStep tos dist kv = dist := by
  unfold distStep
  rw [hfc]

theorem distStep_eq_of_none_some {α : Type} [LinearOrderedField α]
    {tos : List ℕ} (dist : List α) {kv : ℕ × α} {r : ℕ}
    (hfc : find_closest tos kv.1 = (none, some r)) :
    distStep tos dist kv = addAt dist (tos.indexOf r) kv.2 := by
  unfold distStep
  rw [hfc]

theorem distStep_eq_of_some_none {α : Type} [LinearOrderedField α]
    {tos : List ℕ} (dist : List α) {kv : ℕ × α} {l : ℕ}
    (hfc : find_closest tos kv.1 = (some l, none)) :
    distStep tos dist kv = addAt dist (tos.indexOf l) kv.2 := by
  unfold distStep
  rw [hfc]

theorem distStep_eq_of_some_some {α : Type} [LinearOrderedField α]
    {tos : List ℕ} (dist : List α) {kv : ℕ × α} {l r : ℕ}
    (hfc : find_closest tos kv.1 = (some l, some r)) :
    distStep tos dist kv =
      if l = r then addAt dist (tos.indexOf l) kv.2
      else addAt (addAt dist (tos.indexOf l)
          (((r : α) - (kv.1 : α)) / ((r : α) - (l : α)) * kv.2))
        (tos.indexOf r)
        (((kv.1 : α) - (l : α)) / ((r : α) - (l : α)) * kv.2) := by
  unfold distStep
  rw [hfc]

theorem distStep_length {α : Type} [LinearOrderedField α]
    (tos : List ℕ) (dist : List α) (kv : ℕ × α) :
    (distStep tos dist kv).length = dist.length := by
  rcases hfc : find_closest tos kv.1 with ⟨o1, o2⟩
  cases o1 with
  | none =>
    cases o2 with
    | none => rw [distStep_eq_of_none_none dist hfc]
    | some r => rw [distStep_eq_of_none_some dist hfc, length_addAt]
  | some l =>
    cases o2 with
    | none => rw [distStep_eq_of_some_none dist hfc, length_addAt]
    | some r =>
      rw [distStep_eq_of_some_some dist hfc]
      by_cases hlr : l = r
      · rw [if_pos hlr, length_addAt]
      · rw [if_neg hlr, length_addAt, length_addAt]

theorem distStep_sum {α : Type} [LinearOrderedField α]
    (tos : List ℕ) (dist : List α) (kv : ℕ × α) (hne : tos ≠ [])
    (hlen : dist.length = tos.length) :
    (distStep tos dist kv).sum = dist.sum + kv.2 := by
  rcases hfc : find_closest tos kv.1 with ⟨o1, o2⟩
  cases o1 with
  | none =>
    cases o2 with
    | none => exact absurd hfc (find_closest_not_both_none hne)
    | some r =>
      have hr : r ∈ tos := find_closest_right_mem hfc
      rw [distStep_eq_of_none_some dist hfc]
      exact sum_addAt dist _ kv.2
        (by rw [hlen]; exact List.indexOf_lt_length.mpr hr)
  | some l =>
    have hl : l ∈ tos := find_closest_left_mem hfc
    have hli : tos.indexOf l < dist.length := by
      rw [hlen]; exact List.indexOf_lt_length.mpr hl
    cases o2 with
    | none =>
      rw [distStep_eq_of_some_none dist hfc]
      exact sum_addAt dist _ kv.2 hli
    | some r =>
      have hr : r ∈ tos := find_closest_right_mem hfc
      have hri : tos.indexOf r < dist.length := by
        rw [hlen]; exact List.indexOf_lt_length.mpr hr
      rw [distStep_eq_of_some_some dist hfc]
      by_cases hlr : l = r
      · rw [if_pos hlr]
        exact sum_addAt dist _ kv.2 hli
      · rw [if_neg hlr]
        have hri2 : tos.indexOf r <
            (addAt dist (tos.indexOf l)
              (((r : α) - (kv.1 : α)) / ((r : α) - (l : α)) * kv.2)).length := by
          rw [length_addAt]; exact hri
        rw [sum_addAt _ _ _ hri2, sum_addAt _ _ _ hli]
        have hcast : (l : α) ≠ (r : α) := fun hc =>
          hlr (Nat.cast_injective hc)
        have hsub : (r : α) - (l : α) ≠ 0 :=
          sub_ne_zero.mpr (Ne.symm hcast)
        field_simp
        ring

theorem foldl_distStep_sum {α : Type} [LinearOrderedField α]
    (tos : List ℕ) (hne : tos ≠ []) :
    ∀ (src : List (ℕ × α)) (dist : List α), dist.length = tos.length →
      (src.foldl (distStep tos) dist).sum =
        dist.sum + (src.map Prod.snd).sum := by
  intro src
  induction src with
  | nil => intro dist _; simp
  | cons kv rest ih =>
    intro dist hlen
    rw [List.foldl_cons]
    have hlen2 : (distStep tos dist kv).length = tos.length := by
      rw [distStep_length]; exact hlen
    rw [ih _ hlen2, distStep_sum tos dist kv hne hlen]
    simp only [List.map_cons, List.sum_cons]
    ring

theorem distributeCore_sum {α : Type} [LinearOrderedField α]
    (src : List (ℕ × α)) (tos : List ℕ) (hne : tos ≠ []) :
    (distributeCore src tos).sum = (src.map Prod.snd).sum := by
  unfold distributeCore
  rw [foldl_distStep_sum tos hne src _ (List.length_replicate _ _)]
  simp

/-- C3: `distribute_values` conserves the total (exactly, in exact
arithmetic, hence within the 1e-2 assertion tolerance) for every NaN-free
bucket and nonempty target grid, and reproduces the three concrete examples;
the source bucket is a pure value, so the call cannot mutate it. -/
theorem c3_distribute_conserves_sum :
    (∀ (b : Bucket ℝ) (verts : List Label),
      (∀ e ∈ b.entries, e.2.isSome = true) → verts ≠ [] →
      distribute_values b (verts.map LabelArg.fromLabel) =
        .ok (distributeCore
          (b.entries.map (fun e => (e.1.dc_count, e.2.getD 0)))
          (verts.map Label.dc_count)) ∧
      (distributeCore (b.entries.map (fun e => (e.1.dc_count, e.2.getD 0)))
        (verts.map Label.dc_count)).sum =
        (b.entries.map (fun e => e.2.getD 0)).sum) ∧
    mkBucket ["1Y", "3Y"] (some [(100 : ℚ), -100]) = .ok bEx13 ∧
    distribute_values bEx13 [LabelArg.fromString "2Y"] = .ok [0] ∧
    distribute_values bEx13
      [LabelArg.fromString "1Y", LabelArg.fromString "3Y"] = .ok [100, -100] ∧
    distribute_values bEx13
      [LabelArg.fromString "2Y", LabelArg.fromString "4Y"] = .ok [50, -50] := by
  constructor
  · intro b verts hsome hne
    have htos : verts.map Label.dc_count ≠ [] := by
      intro hc
      exact hne (List.map_eq_nil_iff.mp hc)
    have hsum := distributeCore_sum
      (b.entries.map (fun e => (e.1.dc_count, e.2.getD 0)))
      (verts.map Label.dc_count) htos
    have hsnd : ((b.entries.map
        (fun e => (e.1.dc_count, e.2.getD 0))).map Prod.snd) =
        b.entries.map (fun e => e.2.getD 0) := by
      rw [List.map_map]
      rfl
    have hany : (b.entries.any fun e => e.2.isNone) = false := by
      cases hq : b.entries.any (fun e => e.2.isNone) with
      | false => rfl
      | true =>
        rcases List.any_eq_true.mp hq with ⟨e, he, hn⟩
        have := hsome e he
        rw [Option.isNone_iff_eq_none] at hn
        rw [hn] at this
        cases this
    refine ⟨?_, by rw [hsum, hsnd]⟩
    simp only [distribute_values, hany, Bool.false_eq_true, if_false,
      mapM_fromLabel verts]
    rw [if_pos]
    rw [hsum, hsnd, sub_self, abs_zero]
    norm_num
  · refine ⟨rfl, ?_, ?_, ?_⟩
    · have hm : List.mapM labelCtor [LabelArg.fromString "2Y"] =
          .ok [{ y := 2, m := 0, w := 0, d := 0, text := "2Y" }] := rfl
      have hany : (bEx13.entries.any fun e => e.2.isNone) = false := rfl
      simp only [distribute_values, hany, Bool.false_eq_true, if_false, hm,
        bEx13, List.map_cons, List.map_nil, Label.dc_count]
      norm_num [distributeCore, distStep, find_closest, addAt,
        List.replicate_succ]
    · have hm : List.mapM labelCtor
          [LabelArg.fromString "1Y", LabelArg.fromString "3Y"] =
          .ok [{ y := 1, m := 0, w := 0, d := 0, text := "1Y" },
               { y := 3, m := 0, w := 0, d := 0, text := "3Y" }] := rfl
      have hany : (bEx13.entries.any fun e => e.2.isNone) = false := rfl
      simp only [distribute_values, hany, Bool.false_eq_true, if_false, hm,
        bEx13, List.map_cons, List.map_nil, Label.dc_count]
      norm_num [distributeCore, distStep, find_closest, addAt,
        List.replicate_succ]
    · have hm : List.mapM labelCtor
          [LabelArg.fromString "2Y", LabelArg.fromString "4Y"] =
          .ok [{ y := 2, m := 0, w := 0, d := 0, text := "2Y" },
               { y := 4, m := 0, w := 0, d := 0, text := "4Y" }] := rfl
      have hany : (bEx13.entries.any fun e => e.2.isNone) = false := rfl
      simp only [distribute_values, hany, Bool.false_eq_true, if_false, hm,
        bEx13, List.map_cons, List.map_nil, Label.dc_count]
      norm_num [distributeCore, distStep, find_closest, addAt,
        List.replicate_succ]

/-- C3 witness: the general conservation statement at a concrete one-entry
real bucket. -/
theorem c3_distribute_conserves_sum_witness :
    (∀ e ∈ (⟨[({ y := 0, m := 0, w := 0, d := 1, text := "1D" },
        some (5 : ℝ))]⟩ : Bucket ℝ).entries, e.2.isSome = true) ∧
    ([{ y := 0, m := 0, w := 0, d := 2, text := "2D" }] : List Label) ≠ [] ∧
    (distributeCore
      ((⟨[({ y := 0, m := 0, w := 0, d := 1, text := "1D" },
        some (5 : ℝ))]⟩ : Bucket ℝ).entries.map
          (fun e => (e.1.dc_count, e.2.getD 0)))
      (([{ y := 0, m := 0, w := 0, d := 2, text := "2D" }] :
        List Label).map Label.dc_count)).sum =
      ((⟨[({ y := 0, m := 0, w := 0, d := 1, text := "1D" },
        some (5 : ℝ))]⟩ : Bucket ℝ).entries.map
          (fun e => e.2.getD 0)).sum := by
  have hsome : ∀ e ∈ (⟨[({ y := 0, m := 0, w := 0, d := 1, text := "1D" },
      some (5 : ℝ))]⟩ : Bucket ℝ).entries, e.2.isSome = true := by
    intro e he
    rcases List.mem_singleton.mp he with rfl
    rfl
  have hne : ([{ y := 0, m := 0, w := 0, d := 2, text := "2D" }] :
      List Label) ≠ [] := by simp
  exact ⟨hsome, hne,
    (c3_distribute_conserves_sum.1 _ _ hsome hne).2⟩

/-! ### Bootstrap lemmas for the Curve constructor -/

theorem rate2fct_ok_of_nonneg {r : ℝ} {s e : ℤ} {comp : Compounding}
    {dc : DayCount} {cal : List ℤ} (h : 0 ≤ calcTerm dc cal s e) :
    ∃ v, rate2fct r s e comp dc cal = .ok v := by
  have hnn : ¬ (calcTerm dc cal s e < 0) := not_lt.mpr h
  cases comp with
  | YIELD =>
    refine ⟨(1 + r) ^ (((calcTerm dc cal s e : ℚ) : ℝ)), ?_⟩
    simp only [rate2fct, if_neg hnn]
  | LINEAR =>
    refine ⟨1 + r * ((calcTerm dc cal s e : ℚ) : ℝ), ?_⟩
    simp only [rate2fct, if_neg hnn]
  | CONTINUOUS =>
    refine ⟨Real.exp (r * ((calcTerm dc cal s e : ℚ) : ℝ)), ?_⟩
    simp only [rate2fct, if_neg hnn]

theorem chainFactor_error_msg {s : ℤ} {tf : ℝ} {prev : List (ℤ × ℝ)}
    {m : String} (h : chainFactor s tf prev = .error m) : m = fraMsg := by
  unfold chainFactor at h
  by_cases he : (prev.filter (fun p => decide (p.1 = s))).isEmpty = true
  · rw [if_pos he] at h
    cases h
    rfl
  · rw [if_neg he] at h
    cases h

theorem chainFactor_no_match {s : ℤ} (tf : ℝ) {prev : List (ℤ × ℝ)}
    (h : ∀ p ∈ prev, p.1 ≠ s) : chainFactor s tf prev = .error fraMsg := by
  unfold chainFactor
  have hfil : prev.filter (fun p => decide (p.1 = s)) = [] := by
    rw [List.filter_eq_nil_iff]
    intro p hp
    simp [h p hp]
  rw [hfil]
  rfl

theorem bootstrap_unchained_fails (comp : Compounding) (dc : DayCount)
    (cal : List ℤ) (ref : ℤ) :
    ∀ (pre : List (ℤ × ℤ × ℝ)) (s e : ℤ) (r : ℝ)
      (post : List (ℤ × ℤ × ℝ)) (prev : List (ℤ × ℝ)),
      (∀ q ∈ pre, 0 ≤ calcTerm dc cal q.1 q.2.1) →
      0 ≤ calcTerm dc cal s e →
      s ≠ ref →
      (∀ q ∈ pre, q.2.1 ≠ s) →
      (∀ p ∈ prev, p.1 ≠ s) →
      bootstrap comp dc cal ref (pre ++ (s, e, r) :: post) prev =
        .error fraMsg := by
  intro pre
  induction pre with
  | nil =>
    intro s e r post prev hpre hterm hs hpre2 hprev
    rcases @rate2fct_ok_of_nonneg r s e comp dc cal hterm with ⟨v, hv⟩
    simp only [List.nil_append, bootstrap, hv, if_neg hs,
      chainFactor_no_match v hprev]
  | cons q pre ih =>
    intro s e r post prev hpre hterm hs hpre2 hprev
    rcases q with ⟨q1, q2, q3⟩
    have hqterm : 0 ≤ calcTerm dc cal q1 q2 :=
      hpre (q1, q2, q3) (List.mem_cons_self _ _)
    rcases @rate2fct_ok_of_nonneg q3 q1 q2 comp dc cal hqterm with ⟨v, hv⟩
    have hpre' : ∀ p ∈ pre, 0 ≤ calcTerm dc cal p.1 p.2.1 :=
      fun p hp => hpre p (List.mem_cons_of_mem _ hp)
    have hpre2' : ∀ p ∈ pre, p.2.1 ≠ s :=
      fun p hp => hpre2 p (List.mem_cons_of_mem _ hp)
    have hq2 : q2 ≠ s := hpre2 (q1, q2, q3) (List.mem_cons_self _ _)
    by_cases hq1 : q1 = ref
    · have hprev' : ∀ p ∈ prev ++ [(q2, v)], p.1 ≠ s := by
        intro p hp
        rcases List.mem_append.mp hp with hp1 | hp2
        · exact hprev p hp1
        · rcases List.mem_singleton.mp hp2 with rfl
          exact hq2
      have hrec := ih s e r post (prev ++ [(q2, v)]) hpre' hterm hs hpre2' hprev'
      simp only [List.cons_append, bootstrap, hv, if_pos hq1, List.append_eq,
        hrec]
    · cases hcf : chainFactor q1 v prev with
      | error m =>
        have hm := chainFactor_error_msg hcf
        simp only [List.cons_append, bootstrap, hv, if_neg hq1, hcf, hm]
      | ok f =>
        have hprev' : ∀ p ∈ prev ++ [(q2, f)], p.1 ≠ s := by
          intro p hp
          rcases List.mem_append.mp hp with hp1 | hp2
          · exact hprev p hp1
          · rcases List.mem_singleton.mp hp2 with rfl
            exact hq2
        have hrec := ih s e r post (prev ++ [(q2, f)]) hpre' hterm hs hpre2' hprev'
        simp only [List.cons_append, bootstrap, hv, if_neg hq1, hcf,
          List.append_eq, hrec]

theorem bootstrap_length (comp : Compounding) (dc : DayCount) (cal : List ℤ)
    (ref : ℤ) :
    ∀ (segs : List (ℤ × ℤ × ℝ)) (prev : List (ℤ × ℝ)) (fs : List ℝ),
      bootstrap comp dc cal ref segs prev = .ok fs →
      fs.length = segs.length := by
  intro segs
  induction segs with
  | nil =>
    intro prev fs h
    simp only [bootstrap, Except.ok.injEq] at h
    rw [← h]
    rfl
  | cons q rest ih =>
    intro prev fs h
    rcases q with ⟨s0, e0, r0⟩
    simp only [bootstrap] at h
    cases h1 : rate2fct r0 s0 e0 comp dc cal with
    | error m => simp only [h1] at h; exact Except.noConfusion h
    | ok tf =>
      simp only [h1] at h
      cases h2 : (if s0 = ref then Except.ok tf
          else chainFactor s0 tf prev) with
      | error m => simp only [h2] at h; exact Except.noConfusion h
      | ok f =>
        simp only [h2] at h
        cases h3 : bootstrap comp dc cal ref rest (prev ++ [(e0, f)]) with
        | error m => simp only [h3] at h; exact Except.noConfusion h
        | ok fs2 =>
          simp only [h3, Except.ok.injEq] at h
          rw [← h]
          simp [ih _ _ h3]

theorem bootstrap_ok_chain (comp : Compounding) (dc : DayCount)
    (cal : List ℤ) (ref : ℤ) :
    ∀ (segs : List (ℤ × ℤ × ℝ)) (prev : List (ℤ × ℝ)) (fs : List ℝ),
      bootstrap comp dc cal ref segs prev = .ok fs →
      ∀ (i : ℕ) (s e : ℤ) (r : ℝ), segs[i]? = some (s, e, r) → s ≠ ref →
        ∃ tf f, rate2fct r s e comp dc cal = .ok tf ∧ fs[i]? = some f ∧
          chainFactor s tf
            (prev ++ (((segs.map (fun q => q.2.1)).zip fs).take i)) =
            .ok f := by
  intro segs
  induction segs with
  | nil =>
    intro prev fs h i s e r hseg hs
    cases hseg
  | cons q rest ih =>
    intro prev fs h i s e r hseg hs
    rcases q with ⟨s0, e0, r0⟩
    simp only [bootstrap] at h
    cases h1 : rate2fct r0 s0 e0 comp dc cal with
    | error m => simp only [h1] at h; exact Except.noConfusion h
    | ok tf =>
      simp only [h1] at h
      cases h2 : (if s0 = ref then Except.ok tf
          else chainFactor s0 tf prev) with
      | error m => simp only [h2] at h; exact Except.noConfusion h
      | ok f =>
        simp only [h2] at h
        cases h3 : bootstrap comp dc cal ref rest (prev ++ [(e0, f)]) with
        | error m => simp only [h3] at h; exact Except.noConfusion h
        | ok fs2 =>
          simp only [h3, Except.ok.injEq] at h
          rw [← h]
          cases i with
          | zero =>
            simp only [List.getElem?_cons_zero, Option.some.injEq,
              Prod.mk.injEq] at hseg
            obtain ⟨rfl, rfl, rfl⟩ := hseg
            rw [if_neg hs] at h2
            refine ⟨tf, f, h1, by simp, ?_⟩
            simpa using h2
          | succ j =>
            simp only [List.getElem?_cons_succ] at hseg
            rcases ih (prev ++ [(e0, f)]) fs2 h3 j s e r hseg hs with
              ⟨tf2, f2, htf2, hf2, hchain2⟩
            refine ⟨tf2, f2, htf2, by simpa using hf2, ?_⟩
            rw [List.map_cons, List.zip_cons_cons, List.take_succ_cons,
              List.append_cons]
            exact hchain2

theorem filter_fst_single :
    ∀ (l : List (ℤ × ℝ)), (l.map Prod.fst).Nodup →
      ∀ (j : ℕ) (s : ℤ) (fj : ℝ), l[j]? = some (s, fj) →
        l.filter (fun p => decide (p.1 = s)) = [(s, fj)] := by
  intro l
  induction l with
  | nil => intro _ j s fj h; cases h
  | cons p t ih =>
    intro hnd j s fj h
    rw [List.map_cons, List.nodup_cons] at hnd
    cases j with
    | zero =>
      simp only [List.getElem?_cons_zero, Option.some.injEq] at h
      subst h
      rw [List.filter_cons_of_pos (by simp)]
      have hft : t.filter (fun p => decide (p.1 = s)) = [] := by
        rw [List.filter_eq_nil_iff]
        intro q hq
        intro hqs
        apply hnd.1
        rw [List.mem_map]
        refine ⟨q, hq, ?_⟩
        simpa using hqs
      rw [hft]
    | succ j =>
      simp only [List.getElem?_cons_succ] at h
      have hmem : (s, fj) ∈ t := by
        have := List.getElem?_eq_some_iff.mp h
        rcases this with ⟨hj, hget⟩
        rw [← hget]
        exact List.getElem_mem hj
      have hps : p.1 ≠ s := by
        intro hc
        apply hnd.1
        rw [List.mem_map]
        exact ⟨(s, fj), hmem, by rw [hc]⟩
      rw [List.filter_cons_of_neg (by simp [hps])]
      exact ih hnd.2 j s fj h

theorem nodupB_eq_true_iff : ∀ l : List ℤ, nodupB l = true ↔ l.Nodup := by
  intro l
  induction l with
  | nil => simp [nodupB]
  | cons a t ih =>
    simp [nodupB, List.nodup_cons, ih, List.contains, List.elem_iff]

theorem isSortedLeB_eq_true_iff :
    ∀ l : List ℤ, isSortedLeB l = true ↔ l.Chain' (· ≤ ·) := by
  intro l
  induction l with
  | nil => simp [isSortedLeB]
  | cons a t ih =>
    cases t with
    | nil => simp [isSortedLeB]
    | cons b t2 =>
      rw [List.chain'_cons, ← ih]
      simp [isSortedLeB]

theorem zip_map_snd_fst :
    ∀ (as bs : List ℤ) (cs : List ℝ), as.length = bs.length →
      bs.length = cs.length →
      (as.zip (bs.zip cs)).map (fun q => q.2.1) = bs := by
  intro as
  induction as with
  | nil =>
    intro bs cs h1 _
    cases bs with
    | nil => rfl
    | cons b bs2 => cases h1
  | cons a as2 ih =>
    intro bs cs h1 h2
    cases bs with
    | nil => cases h1
    | cons b bs2 =>
      cases cs with
      | nil => cases h2
      | cons c cs2 =>
        simp only [List.zip_cons_cons, List.map_cons]
        rw [ih bs2 cs2 (by simpa using h1) (by simpa using h2)]

theorem curveInit_nil_eq (end_dates : List ℤ) (rates : List ℝ)
    (im : InterpMethod) (comp : Compounding) (dc : DayCount) (cal : List ℤ) :
    curveInit [] end_dates rates im comp dc cal =
      if ([] : List ℤ).length ≠ end_dates.length then
        .error "start and end dates must have the same length"
      else if end_dates.length ≠ rates.length then
        .error "end_dates and rates must have the same length"
      else if !(isSortedLeB end_dates) then
        .error "end_dates must be sorted in ascending order"
      else if !(nodupB end_dates) then
        .error "end_dates must be all unique"
      else .error "index 0 is out of bounds" := rfl

theorem curveInit_cons_eq (ref : ℤ) (rest end_dates : List ℤ)
    (rates : List ℝ) (im : InterpMethod) (comp : Compounding) (dc : DayCount)
    (cal : List ℤ) :
    curveInit (ref :: rest) end_dates rates im comp dc cal =
      if (ref :: rest).length ≠ end_dates.length then
        .error "start and end dates must have the same length"
      else if end_dates.length ≠ rates.length then
        .error "end_dates and rates must have the same length"
      else if !(isSortedLeB end_dates) then
        .error "end_dates must be sorted in ascending order"
      else if !(nodupB end_dates) then
        .error "end_dates must be all unique"
      else if decide (dc = DayCount.BUS252) &&
          !(nodupB (end_dates.map (busday_count cal ref))) then
        .error "Dates given must have no repeated business days count"
      else
        match bootstrap comp dc cal ref
            ((ref :: rest).zip (end_dates.zip rates)) [] with
        | .error m => .error m
        | .ok fs =>
          match fct2rateV fs ref end_dates comp dc cal with
          | .error m => .error m
          | .ok rs =>
            .ok { ref_date := ref, start_dates := ref :: rest,
                  end_dates := end_dates, interp_method := im,
                  compounding := comp, day_count := dc, cal := cal,
                  factors := fs, rates := rs,
                  ndays := match dc with
                    | DayCount.BUS252 =>
                      end_dates.map (busday_count cal ref)
                    | _ => end_dates.map (fun e => e - ref) } := rfl

/-- Inversion of a successful `Curve.__init__`: all validation checks
passed, the bootstrap and the zero-coupon rate conversion succeeded, and the
stored fields are as constructed. -/
theorem curveInit_ok_elim {start_dates end_dates : List ℤ} {rates : List ℝ}
    {im : InterpMethod} {comp : Compounding} {dc : DayCount} {cal : List ℤ}
    {c : Curve}
    (h : curveInit start_dates end_dates rates im comp dc cal = .ok c) :
    ∃ (ref : ℤ) (rest : List ℤ) (fs rs : List ℝ),
      start_dates = ref :: rest ∧
      start_dates.length = end_dates.length ∧
      end_dates.length = rates.length ∧
      isSortedLeB end_dates = true ∧
      nodupB end_dates = true ∧
      (dc = DayCount.BUS252 →
        nodupB (end_dates.map (busday_count cal ref)) = true) ∧
      bootstrap comp dc cal ref
        (start_dates.zip (end_dates.zip rates)) [] = .ok fs ∧
      fct2rateV fs ref end_dates comp dc cal = .ok rs ∧
      c = { ref_date := ref, start_dates := start_dates,
            end_dates := end_dates, interp_method := im, compounding := comp,
            day_count := dc, cal := cal, factors := fs, rates := rs,
            ndays := end_dates.map (xAxis dc cal ref) } := by
  cases hsd : start_dates with
  | nil =>
    rw [hsd, curveInit_nil_eq] at h
    by_cases a1 : ([] : List ℤ).length ≠ end_dates.length
    · rw [if_pos a1] at h; exact Except.noConfusion h
    rw [if_neg a1] at h
    by_cases a2 : end_dates.length ≠ rates.length
    · rw [if_pos a2] at h; exact Except.noConfusion h
    rw [if_neg a2] at h
    by_cases a3 : (!isSortedLeB end_dates) = true
    · rw [if_pos a3] at h; exact Except.noConfusion h
    rw [if_neg a3] at h
    by_cases a4 : (!nodupB end_dates) = true
    · rw [if_pos a4] at h; exact Except.noConfusion h
    rw [if_neg a4] at h
    exact Except.noConfusion h
  | cons ref rest =>
    rw [hsd, curveInit_cons_eq] at h
    by_cases h1 : (ref :: rest).length ≠ end_dates.length
    · rw [if_pos h1] at h
      exact Except.noConfusion h
    rw [if_neg h1] at h
    by_cases h2 : end_dates.length ≠ rates.length
    · rw [if_pos h2] at h
      exact Except.noConfusion h
    rw [if_neg h2] at h
    cases h3 : isSortedLeB end_dates with
    | false =>
      rw [if_pos (by simp [h3])] at h
      exact Except.noConfusion h
    | true =>
      rw [if_neg (by simp [h3])] at h
      cases h4 : nodupB end_dates with
      | false =>
        rw [if_pos (by simp [h4])] at h
        exact Except.noConfusion h
      | true =>
        rw [if_neg (by simp [h4])] at h
        cases hbus : (decide (dc = DayCount.BUS252) &&
            !nodupB (end_dates.map (busday_count cal ref))) with
        | true =>
          rw [if_pos hbus] at h
          exact Except.noConfusion h
        | false =>
          rw [if_neg (by simp [hbus])] at h
          cases hboot : bootstrap comp dc cal ref
              ((ref :: rest).zip (end_dates.zip rates)) [] with
          | error m =>
            simp only [hboot] at h
            exact Except.noConfusion h
          | ok fs =>
            simp only [hboot] at h
            cases hrs : fct2rateV fs ref end_dates comp dc cal with
            | error m =>
              simp only [hrs] at h
              exact Except.noConfusion h
            | ok rs =>
              simp only [hrs, Except.ok.injEq] at h
              refine ⟨ref, rest, fs, rs, rfl, not_ne_iff.mp h1,
                not_ne_iff.mp h2, rfl, rfl, ?_, hboot, hrs, ?_⟩
              · intro hdc
                rw [hdc] at hbus
                simpa using hbus
              · rw [← h]
                cases dc <;> rfl

/-- C2: for an input passing the earlier validation checks (lengths, sorted
unique end dates, BUS/252 distinct counts, non-negative terms) in which some
segment starts off the reference date and no earlier segment ends at its
start date, the constructor fails with the unresolvable-chain error; and in
every successfully constructed curve, a forward-starting segment's factor is
its own segment factor times the factor of the (earlier) segment whose end
date equals its start date. -/
theorem c2_curve_fra_chaining (start_dates end_dates : List ℤ)
    (rates : List ℝ) (im : InterpMethod) (comp : Compounding) (dc : DayCount)
    (cal : List ℤ) :
    (∀ (ref : ℤ) (rest : List ℤ) (pre : List (ℤ × ℤ × ℝ)) (s e : ℤ) (r : ℝ)
       (post : List (ℤ × ℤ × ℝ)),
      start_dates = ref :: rest →
      start_dates.length = end_dates.length →
      end_dates.length = rates.length →
      isSortedLeB end_dates = true →
      nodupB end_dates = true →
      (dc = DayCount.BUS252 →
        nodupB (end_dates.map (busday_count cal ref)) = true) →
      start_dates.zip (end_dates.zip rates) = pre ++ (s, e, r) :: post →
      (∀ q ∈ pre, 0 ≤ calcTerm dc cal q.1 q.2.1) →
      0 ≤ calcTerm dc cal s e →
      s ≠ ref →
      (∀ q ∈ pre, q.2.1 ≠ s) →
      curveInit start_dates end_dates rates im comp dc cal =
        .error fraMsg) ∧
    (∀ c : Curve,
      curveInit start_dates end_dates rates im comp dc cal = .ok c →
      ∀ (i : ℕ) (s e : ℤ) (r : ℝ),
        (start_dates.zip (end_dates.zip rates))[i]? = some (s, e, r) →
        s ≠ c.ref_date →
        ∃ (j : ℕ) (tf fj f : ℝ), j < i ∧ end_dates[j]? = some s ∧
          rate2fct r s e comp dc cal = .ok tf ∧
          c.factors[j]? = some fj ∧ c.factors[i]? = some f ∧
          f = tf * fj) := by
  constructor
  · intro ref rest pre s e r post hsd hlen1 hlen2 hsort hnd hbus hzip hpre
      hterm hs hpre2
    subst hsd
    have hbusneg : ¬ ((decide (dc = DayCount.BUS252) &&
        !nodupB (end_dates.map (busday_count cal ref))) = true) := by
      by_cases hdc : dc = DayCount.BUS252
      · simp [hdc, hbus hdc]
      · simp [hdc]
    rw [curveInit_cons_eq, if_neg (not_ne_iff.mpr hlen1),
      if_neg (not_ne_iff.mpr hlen2), if_neg (by simp [hsort]),
      if_neg (by simp [hnd]), if_neg hbusneg]
    have hfail := bootstrap_unchained_fails comp dc cal ref pre s e r post []
      hpre hterm hs hpre2 (by simp)
    simp only [hzip, hfail]
  · intro c hok i s e r hseg hs
    rcases curveInit_ok_elim hok with
      ⟨ref, rest, fs, rs, hsd, hlen1, hlen2, hsort, hnd, hbus, hboot, hrs, hc⟩
    have href : c.ref_date = ref := by rw [hc]
    have hfs : c.factors = fs := by rw [hc]
    rw [href] at hs
    rcases bootstrap_ok_chain comp dc cal ref _ [] fs hboot i s e r hseg hs
      with ⟨tf, f, htf, hf, hchain⟩
    have hfslen : fs.length =
        (start_dates.zip (end_dates.zip rates)).length :=
      bootstrap_length comp dc cal ref _ [] fs hboot
    have hzlen : (start_dates.zip (end_dates.zip rates)).length =
        end_dates.length := by
      rw [List.length_zip, List.length_zip]
      omega
    have hmap : ((start_dates.zip (end_dates.zip rates)).map
        (fun q => q.2.1)) = end_dates :=
      zip_map_snd_fst start_dates end_dates rates hlen1 hlen2
    rw [List.nil_append, hmap] at hchain
    -- extract the matching pair from the chain multiplication
    unfold chainFactor at hchain
    cases hemp : ((end_dates.zip fs).take i).filter
        (fun p => decide (p.1 = s)) |>.isEmpty with
    | true =>
      rw [if_pos hemp] at hchain
      exact Except.noConfusion hchain
    | false =>
      rw [if_neg (by simp [hemp])] at hchain
      have hne : ((end_dates.zip fs).take i).filter
          (fun p => decide (p.1 = s)) ≠ [] := by
        intro hcon
        rw [hcon] at hemp
        cases hemp
      rcases List.exists_mem_of_ne_nil _ hne with ⟨p, hp⟩
      have hpmem := List.mem_of_mem_filter hp
      have hps : p.1 = s := by
        have := List.of_mem_filter hp
        simpa using this
      rcases List.getElem_of_mem hpmem with ⟨n, hn, hgn⟩
      have hnlt : n < i := by
        have := hn
        rw [List.length_take] at this
        omega
      have htake : ((end_dates.zip fs).take i)[n]? = some p :=
        List.getElem?_eq_some_iff.mpr ⟨hn, hgn⟩
      have hz : (end_dates.zip fs)[n]? = some p := by
        rw [List.getElem?_take, if_pos hnlt] at htake
        exact htake
      have hznodup : (((end_dates.zip fs).take i).map Prod.fst).Nodup := by
        have hednd : end_dates.Nodup := (nodupB_eq_true_iff _).mp hnd
        have hmfst : ((end_dates.zip fs).take i).map Prod.fst =
            end_dates.take i := by
          rw [List.map_take, List.map_fst_zip]
          omega
        rw [hmfst]
        exact hednd.sublist (List.take_sublist i end_dates)
      have hfil := filter_fst_single ((end_dates.zip fs).take i) hznodup n
        s p.2 (by rw [← hps, Prod.mk.eta]; exact htake)
      rw [hfil] at hchain
      simp only [List.foldl_cons, List.foldl_nil, Except.ok.injEq] at hchain
      have hz2 : end_dates[n]? = some s ∧ fs[n]? = some p.2 := by
        have := List.getElem?_zip_eq_some.mp hz
        rw [hps] at this
        exact ⟨this.1, by simpa using (List.getElem?_zip_eq_some.mp hz).2⟩
      exact ⟨n, tf, p.2, f, hnlt, hz2.1, htf, by rw [hfs]; exact hz2.2,
        by rw [hfs]; exact hf, hchain.symm⟩

/-- C2 witness: a concrete two-segment input whose second segment starts at
day 5, matching no prior end date, fails with the unresolvable-chain
error. -/
theorem c2_curve_fra_chaining_witness :
    ((5 : ℤ) ≠ 0) ∧
    (∀ q ∈ [((0 : ℤ), (10 : ℤ), (0 : ℝ))], q.2.1 ≠ 5) ∧
    curveInit [0, 5] [10, 20] [0, 0] InterpMethod.LIN Compounding.LINEAR
      DayCount.ACT365 [] = .error fraMsg := by
  refine ⟨by decide, ?_, ?_⟩
  · intro q hq
    rcases List.mem_singleton.mp hq with rfl
    decide
  · exact (c2_curve_fra_chaining [0, 5] [10, 20] [0, 0] InterpMethod.LIN
      Compounding.LINEAR DayCount.ACT365 []).1 0 [5]
      [((0 : ℤ), (10 : ℤ), (0 : ℝ))] 5 20 0 [] rfl rfl rfl rfl rfl
      (fun h => absurd h (by decide)) rfl
      (by
        intro q hq
        rcases List.mem_singleton.mp hq with rfl
        norm_num [calcTerm])
      (by norm_num [calcTerm]) (by decide)
      (by
        intro q hq
        rcases List.mem_singleton.mp hq with rfl
        decide)

/-! ### Interpolation clamping lemmas -/

theorem mem_of_getLast? {α : Type} {a : α} :
    ∀ l : List α, l.getLast? = some a → a ∈ l := by
  intro l
  induction l with
  | nil => intro h; cases h
  | cons x t ih =>
    intro h
    cases t with
    | nil =>
      cases h
      exact List.mem_cons_self _ _
    | cons y t2 =>
      rw [List.getLast?_cons_cons] at h
      exact List.mem_cons_of_mem _ (ih h)

theorem getLast?_map_f {α β : Type} (f : α → β) :
    ∀ l : List α, (l.map f).getLast? = l.getLast?.map f := by
  intro l
  induction l with
  | nil => rfl
  | cons x t ih =>
    cases t with
    | nil => rfl
    | cons y t2 =>
      simp only [List.map_cons] at ih ⊢
      rw [List.getLast?_cons_cons, List.getLast?_cons_cons]
      exact ih

theorem head?_map_f {α β : Type} (f : α → β) (l : List α) :
    (l.map f).head? = l.head?.map f := by
  cases l <;> rfl

theorem zip_getLast?_eq {α β : Type} :
    ∀ (xs : List α) (ys : List β) (a : α) (b : β), xs.length = ys.length →
      xs.getLast? = some a → ys.getLast? = some b →
      (xs.zip ys).getLast? = some (a, b) := by
  intro xs
  induction xs with
  | nil => intro ys a b _ hx _; cases hx
  | cons x xs ih =>
    intro ys a b hlen hx hy
    cases ys with
    | nil => simp at hlen
    | cons y ys =>
      cases xs with
      | nil =>
        cases ys with
        | nil =>
          cases hx
          cases hy
          rfl
        | cons z zs => simp at hlen
      | cons x2 xs2 =>
        cases ys with
        | nil => simp at hlen
        | cons z zs =>
          rw [List.zip_cons_cons, List.zip_cons_cons,
            List.getLast?_cons_cons] at *
          exact ih (z :: zs) a b (by simpa using hlen) hx hy

theorem zip_head?_eq {α β : Type} (xs : List α) (ys : List β) (a : α) (b : β)
    (hx : xs.head? = some a) (hy : ys.head? = some b) :
    (xs.zip ys).head? = some (a, b) := by
  cases xs with
  | nil => cases hx
  | cons x xs =>
    cases ys with
    | nil => cases hy
    | cons y ys =>
      cases hx
      cases hy
      rfl

theorem pairwise_fst_zip {α β : Type} (R : α → α → Prop) :
    ∀ (xs : List α) (ys : List β), xs.Pairwise R →
      (xs.zip ys).Pairwise (fun p q => R p.1 q.1) := by
  intro xs
  induction xs with
  | nil => intro ys _; simp
  | cons x xs ih =>
    intro ys hp
    cases ys with
    | nil => simp
    | cons y ys =>
      rw [List.pairwise_cons] at hp
      rw [List.zip_cons_cons, List.pairwise_cons]
      refine ⟨?_, ih ys hp.2⟩
      intro q hq
      exact hp.1 q.1 (List.of_mem_zip hq).1

theorem npInterp_of_le_head (l : List (ℝ × ℝ)) (p : ℝ × ℝ)
    (hl : l.head? = some p) (x : ℝ) (hx : x ≤ p.1) : npInterp l x = p.2 := by
  cases l with
  | nil => cases hl
  | cons a t =>
    cases hl
    cases t with
    | nil => rfl
    | cons b t2 =>
      simp only [npInterp]
      rw [if_pos hx]

theorem npInterp_of_last_le :
    ∀ (l : List (ℝ × ℝ)) (p : ℝ × ℝ),
      l.Pairwise (fun a b => a.1 < b.1) → l.getLast? = some p →
      ∀ x : ℝ, p.1 ≤ x → npInterp l x = p.2 := by
  intro l
  induction l with
  | nil => intro p _ hl; cases hl
  | cons a t ih =>
    intro p hp hl x hx
    cases t with
    | nil =>
      cases hl
      rfl
    | cons b t2 =>
      rw [List.getLast?_cons_cons] at hl
      have hpmem : p ∈ b :: t2 := mem_of_getLast? _ hl
      rw [List.pairwise_cons] at hp
      have hap : a.1 < p.1 := hp.1 p hpmem
      have hnx : ¬ (x ≤ a.1) := not_le.mpr (lt_of_lt_of_le hap hx)
      simp only [npInterp]
      rw [if_neg hnx]
      by_cases hxb : x ≤ b.1
      · rw [if_pos hxb]
        have hpb : p = b := by
          rcases List.mem_cons.mp hpmem with h1 | h2
          · exact h1
          · exfalso
            have hbp : b.1 < p.1 := (List.pairwise_cons.mp hp.2).1 p h2
            have : p.1 ≤ b.1 := le_trans hx hxb
            linarith
        have hab : a.1 < b.1 := hp.1 b (List.mem_cons_self _ _)
        have hxe : x = b.1 := le_antisymm hxb (hpb ▸ hx)
        have hne : b.1 - a.1 ≠ 0 := sub_ne_zero.mpr (ne_of_gt hab)
        rw [hxe, hpb, mul_div_assoc, div_self hne, mul_one]
        ring
      · rw [if_neg hxb]
        exact ih p hp.2 hl x hx

theorem xAxis_mono (dc : DayCount) (cal : List ℤ) (ref : ℤ) {d d2 : ℤ}
    (h : d ≤ d2) : xAxis dc cal ref d ≤ xAxis dc cal ref d2 := by
  cases dc with
  | BUS252 => exact busday_count_mono cal ref h
  | ACT360 => simpa [xAxis] using h
  | ACT365 => simpa [xAxis] using h
  | ACTACT => simpa [xAxis] using h

theorem ndays_strict_sorted (dc : DayCount) (cal : List ℤ) (ref : ℤ)
    (end_dates : List ℤ) (hsort : isSortedLeB end_dates = true)
    (hnd : nodupB end_dates = true)
    (hbus : dc = DayCount.BUS252 →
      nodupB (end_dates.map (busday_count cal ref)) = true) :
    (end_dates.map (xAxis dc cal ref)).Pairwise (· < ·) := by
  have hle : end_dates.Pairwise (· ≤ ·) :=
    List.chain'_iff_pairwise.mp ((isSortedLeB_eq_true_iff _).mp hsort)
  have hne : end_dates.Nodup := (nodupB_eq_true_iff _).mp hnd
  have hlt : end_dates.Pairwise (· < ·) :=
    (hle.and hne).imp (fun h => lt_of_le_of_ne h.1 h.2)
  cases dc with
  | BUS252 =>
    have hmle : (end_dates.map (busday_count cal ref)).Pairwise (· ≤ ·) :=
      hle.map _ (fun _ _ h => busday_count_mono cal ref h)
    have hmne : (end_dates.map (busday_count cal ref)).Nodup :=
      (nodupB_eq_true_iff _).mp (hbus rfl)
    exact (hmle.and hmne).imp (fun h => lt_of_le_of_ne h.1 h.2)
  | ACT360 => exact hlt.map _ (fun _ _ h => by simp only [xAxis]; omega)
  | ACT365 => exact hlt.map _ (fun _ _ h => by simp only [xAxis]; omega)
  | ACTACT => exact hlt.map _ (fun _ _ h => by simp only [xAxis]; omega)


theorem getLast?_some_of_ne_nil {α : Type} :
    ∀ (l : List α), l ≠ [] → ∃ a, l.getLast? = some a := by
  intro l
  induction l with
  | nil => intro hcon; exact absurd rfl hcon
  | cons x t ih =>
    intro _
    cases t with
    | nil => exact ⟨x, rfl⟩
    | cons y t2 =>
      obtain ⟨a, ha⟩ := ih (by simp)
      exact ⟨a, by rw [List.getLast?_cons_cons]; exact ha⟩

theorem head?_some_of_ne_nil {α : Type} (l : List α) (h : l ≠ []) :
    ∃ a, l.head? = some a := by
  cases l with
  | nil => exact absurd rfl h
  | cons x t => exact ⟨x, rfl⟩

theorem pairwise_head_le_last :
    ∀ (l : List ℤ), l.Pairwise (· ≤ ·) → ∀ a b, l.head? = some a →
      l.getLast? = some b → a ≤ b := by
  intro l hp a b hh hl
  cases l with
  | nil => cases hh
  | cons x t =>
    cases hh
    cases t with
    | nil => cases hl; exact le_refl _
    | cons y t2 =>
      rw [List.getLast?_cons_cons] at hl
      have hb : b ∈ y :: t2 := mem_of_getLast? _ hl
      exact (List.pairwise_cons.mp hp).1 b hb

theorem interp_exp_eq (c : Curve) (him : c.interp_method = InterpMethod.EXP)
    (d : ℤ) :
    Curve.interp c d =
      fct2rate (Real.exp (npInterp
          ((c.ndays.map (fun n => ((n : ℤ) : ℝ))).zip
            (c.factors.map Real.log))
          (((xAxis c.day_count c.cal c.ref_date d : ℤ) : ℝ))))
        c.ref_date (max (min d (c.end_dates.getLastD 0)) (c.end_dates.headD 0))
        c.compounding c.day_count c.cal := by
  simp only [Curve.interp, him]

/-- C5: for every curve built with the EXP interpolation method, querying
`Curve.interp` strictly after the last end date (resp. strictly before the
first end date) returns exactly the value at that boundary end date: the
query date is clamped to the boundary before the factor-to-rate conversion
and the piecewise-linear interpolation of log factors is flat outside the
knot range. -/
theorem c5_exp_flat_extrapolation
    (start_dates end_dates : List ℤ) (rates : List ℝ)
    (comp : Compounding) (dc : DayCount) (cal : List ℤ) (c : Curve)
    (h : curveInit start_dates end_dates rates InterpMethod.EXP comp dc cal
      = Except.ok c) :
    (∀ d : ℤ, c.end_dates.getLastD 0 < d →
      Curve.interp c d = Curve.interp c (c.end_dates.getLastD 0)) ∧
    (∀ d : ℤ, d < c.end_dates.headD 0 →
      Curve.interp c d = Curve.interp c (c.end_dates.headD 0)) := by
  obtain ⟨ref, rest, fs, rs, hsd, hlen1, hlen2, hsort, hnd, hbus, hboot, hrs,
    hc⟩ := curveInit_ok_elim h
  have him : c.interp_method = InterpMethod.EXP := by rw [hc]
  have hed : c.end_dates = end_dates := by rw [hc]
  have hndy : c.ndays = end_dates.map (xAxis dc cal ref) := by rw [hc]
  have hfac : c.factors = fs := by rw [hc]
  have href : c.ref_date = ref := by rw [hc]
  have hdcp : c.day_count = dc := by rw [hc]
  have hcalp : c.cal = cal := by rw [hc]
  have hcomp : c.compounding = comp := by rw [hc]
  have hpos : 0 < end_dates.length := by rw [← hlen1, hsd]; simp
  have hedne : end_dates ≠ [] := by
    intro hcon; rw [hcon] at hpos; simp at hpos
  obtain ⟨E, hE⟩ := getLast?_some_of_ne_nil end_dates hedne
  obtain ⟨H0, hH⟩ := head?_some_of_ne_nil end_dates hedne
  have hfslen : fs.length = end_dates.length := by
    have hbl := bootstrap_length comp dc cal ref _ [] fs hboot
    rw [hbl, List.length_zip, List.length_zip]
    omega
  have hfsne : fs ≠ [] := by
    intro hcon
    rw [hcon] at hfslen
    rw [← hfslen] at hpos
    simp at hpos
  obtain ⟨fL, hfL⟩ := getLast?_some_of_ne_nil fs hfsne
  obtain ⟨f0, hf0⟩ := head?_some_of_ne_nil fs hfsne
  have hpwle : end_dates.Pairwise (· ≤ ·) :=
    List.chain'_iff_pairwise.mp ((isSortedLeB_eq_true_iff _).mp hsort)
  have hH0E : H0 ≤ E := pairwise_head_le_last end_dates hpwle H0 E hH hE
  have hgld : end_dates.getLastD 0 = E := by
    rw [List.getLastD_eq_getLast?, hE]; rfl
  have hhd : end_dates.headD 0 = H0 := by
    rw [List.headD_eq_head?, hH]; rfl
  have hxs_last : ((end_dates.map (xAxis dc cal ref)).map
      (fun n => ((n : ℤ) : ℝ))).getLast? =
      some (((xAxis dc cal ref E : ℤ) : ℝ)) := by
    rw [getLast?_map_f, getLast?_map_f, hE]; rfl
  have hys_last : (fs.map Real.log).getLast? = some (Real.log fL) := by
    rw [getLast?_map_f, hfL]; rfl
  have hxs_head : ((end_dates.map (xAxis dc cal ref)).map
      (fun n => ((n : ℤ) : ℝ))).head? =
      some (((xAxis dc cal ref H0 : ℤ) : ℝ)) := by
    rw [head?_map_f, head?_map_f, hH]; rfl
  have hys_head : (fs.map Real.log).head? = some (Real.log f0) := by
    rw [head?_map_f, hf0]; rfl
  have hlenxy : ((end_dates.map (xAxis dc cal ref)).map
      (fun n => ((n : ℤ) : ℝ))).length = (fs.map Real.log).length := by
    simp [hfslen]
  have hplast := zip_getLast?_eq _ _ _ _ hlenxy hxs_last hys_last
  have hphead := zip_head?_eq _ _ _ _ hxs_head hys_head
  have hndpw : (end_dates.map (xAxis dc cal ref)).Pairwise (· < ·) :=
    ndays_strict_sorted dc cal ref end_dates hsort hnd hbus
  have hxspw : ((end_dates.map (xAxis dc cal ref)).map
      (fun n => ((n : ℤ) : ℝ))).Pairwise (· < ·) :=
    hndpw.map _ (fun _ _ hab => by exact_mod_cast hab)
  have hppw := pairwise_fst_zip (· < ·) _ (fs.map Real.log) hxspw
  constructor
  · intro d hd
    rw [hed, hgld] at hd ⊢
    rw [interp_exp_eq c him d, interp_exp_eq c him E]
    rw [hed, hndy, hfac, href, hdcp, hcalp, hcomp, hgld, hhd]
    rw [min_eq_right hd.le, min_self, max_eq_left hH0E]
    rw [npInterp_of_last_le _ _ hppw hplast _
        (Int.cast_le.mpr (xAxis_mono dc cal ref hd.le)),
      npInterp_of_last_le _ _ hppw hplast _
        (le_refl (((xAxis dc cal ref E : ℤ) : ℝ)))]
  · intro d hd
    rw [hed, hhd] at hd ⊢
    rw [interp_exp_eq c him d, interp_exp_eq c him H0]
    rw [hed, hndy, hfac, href, hdcp, hcalp, hcomp, hgld, hhd]
    have hdE : d ≤ E := le_trans hd.le hH0E
    rw [min_eq_left hdE, min_eq_left hH0E, max_eq_right hd.le, max_self]
    rw [npInterp_of_le_head _ _ hphead _
        (Int.cast_le.mpr (xAxis_mono dc cal ref hd.le)),
      npInterp_of_le_head _ _ hphead _
        (le_refl (((xAxis dc cal ref H0 : ℤ) : ℝ)))]


/-- C5 witness: a concrete flat two-knot EXP curve (end dates 10 and 20),
queried at 40 (past the last end date) and at -3 (before the first),
returns the boundary rates. -/
theorem c5_exp_flat_extrapolation_witness :
    curveInit [0, 0] [10, 20] [0, 0] InterpMethod.EXP Compounding.LINEAR
      DayCount.ACT365 [] = Except.ok c5curve ∧
    Curve.interp c5curve 40 =
      Curve.interp c5curve (c5curve.end_dates.getLastD 0) ∧
    Curve.interp c5curve (-3) =
      Curve.interp c5curve (c5curve.end_dates.headD 0) := by
  have h : curveInit [0, 0] [10, 20] [0, 0] InterpMethod.EXP
      Compounding.LINEAR DayCount.ACT365 [] = Except.ok c5curve := by
    have hboot : bootstrap Compounding.LINEAR DayCount.ACT365 [] 0
        (((0 : ℤ) :: [(0 : ℤ)]).zip (([10, 20] : List ℤ).zip
          ([0, 0] : List ℝ))) [] = Except.ok [1, 1] := by
      have h1 : rate2fct 0 0 10 Compounding.LINEAR DayCount.ACT365 [] =
          Except.ok 1 := by norm_num [rate2fct, calcTerm]
      have h2 : rate2fct 0 0 20 Compounding.LINEAR DayCount.ACT365 [] =
          Except.ok 1 := by norm_num [rate2fct, calcTerm]
      simp only [List.zip_cons_cons, List.zip_nil_right, bootstrap, h1, h2,
        if_pos rfl]
      rfl
    have hrs : fct2rateV [1, 1] 0 [10, 20] Compounding.LINEAR
        DayCount.ACT365 [] = Except.ok [0, 0] := by
      norm_num [fct2rateV, calcTerm]
    rw [curveInit_cons_eq]
    rw [if_neg (by decide), if_neg (by decide), if_neg (by decide),
      if_neg (by decide), if_neg (by decide)]
    simp only [hboot, hrs]
    rfl
  refine ⟨h, ?_, ?_⟩
  · exact (c5_exp_flat_extrapolation [0, 0] [10, 20] [0, 0]
      Compounding.LINEAR DayCount.ACT365 [] c5curve h).1 40 (by decide)
  · exact (c5_exp_flat_extrapolation [0, 0] [10, 20] [0, 0]
      Compounding.LINEAR DayCount.ACT365 [] c5curve h).2 (-3) (by decide)

end Pctools
